import Mathlib

/-!
# go-bigwig: the query facade of `api.go`

A shallow embedding of the public entry points of `api.go`
(`OpenBigWig`, `CloseBigWig`, `ReadBigWigSignal`, `GetZoomValues`,
`GetChromosomesLen`, `ShowChromosomes`, the header getters) and the
properties proved about them.

Conventions of the embedding.
* A Go pointer is an `Option` (`none` is `nil`); a Go slice whose nil-ness is
  observed is an `Option (List _)`, otherwise a `List _`.
* A run-time panic is an explicit result (`Outcome.nilDeref`).
* Functions that `api.go` calls but does not define (the iterator layer, the
  zoom reader, the zoom selectors, the open sub-steps) are fields of an
  environment record; every call to them is also recorded in a call log.
* `float32` / `float64` values are IEEE-754 bit patterns; only the NaN test
  and the constant `0` are ever applied to them.
* Output written with `fmt.Println` / `fmt.Printf` is not modelled.
* A method receiver `fp` is a non-nil `*Bigwig_file_out`.
* `uint32` / `uint64` arithmetic is reduced modulo `2^32` / `2^64`. Go `int` values that
  are slice lengths, indices or CPU counts stay far below `2^63` and live in `Nat`.
-/

namespace GoBigWig

/-! ## Machine values -/

/-- Bit pattern of a Go `float32` (IEEE-754 binary32). -/
abbrev float32 := Nat

/-- Bit pattern of a Go `float64` (IEEE-754 binary64). -/
abbrev float64 := Nat

/-- `math.IsNaN(float64(v))` for a `float32` `v`: widening keeps NaN-ness, and a
binary32 is a NaN when its exponent field is all ones and its fraction is not zero. -/
def isNaN (v : float32) : Bool :=
  (v / 2 ^ 23) % 256 == 255 && v % 2 ^ 23 != 0

/-- The `float32` constant `0` (positive zero). -/
def zero32 : float32 := 0

/-- A quiet NaN, used in examples. -/
def nan32 : float32 := 0x7FC00000

/-- The `float32` value `1.0`, used in examples. -/
def one32 : float32 := 0x3F800000

/-- Go conversion `uint32(x)` of an `int`: the low 32 bits of the two's-complement
representation. A negative `-(n+1)` has the bits of `n` complemented. -/
def toUint32 : Int → Nat
  | Int.ofNat n => n % 2 ^ 32
  | Int.negSucc n => 2 ^ 32 - 1 - n % 2 ^ 32

/-- Result of running a function that may panic or (in the model) run out of fuel. -/
inductive Outcome (α : Type) where
  | ret (a : α)
  | nilDeref
  | outOfFuel
  deriving DecidableEq, Repr

/-! ## Data model -/

/-- Modelled from the spec: the declaration of the byte source held in
`bigWigFile_t.URL` is not in `api.go`; only `Close` is called on it, so it is a
record with a released flag. -/
structure URL_t where
  fname : String
  closed : Bool
  deriving DecidableEq, Repr

/-- The method `URL.Close()`: releases the byte source. -/
def URL_t.Close (u : URL_t) : URL_t := { u with closed := true }

/-- Modelled from the spec: the declaration of `bwZoomHdr_t` is not in `api.go`;
the fields are the ones `PrintZoomInfo` reads. -/
structure bwZoomHdr_t where
  Level : List Nat
  IndexOffset : List Nat
  DataOffset : List Nat
  deriving DecidableEq, Repr

/-- Modelled from the spec: the declaration of the header type is not in `api.go`;
the fields are the ones `OpenBigWig` and `GetZoomValues` read. -/
structure bigWigHdr_t where
  version : Nat
  nLevels : Nat
  fieldCount : Nat
  definedFieldCount : Nat
  bufsize : Nat
  extensionoffset : Nat
  NBasesCovered : Nat
  MinVal : float64
  MaxVal : float64
  SumData : float64
  SumSquared : float64
  ZoomHdrs : List (Option bwZoomHdr_t)
  deriving DecidableEq, Repr

/-- Modelled from the spec: the declaration of the chromosome list is not in
`api.go`; `Chrom` is a `[]string` compared with `nil`, `Len` a `[]uint32`. -/
structure chromList_t where
  Chrom : Option (List String)
  Len : List Nat
  deriving DecidableEq, Repr

/-- Modelled from the spec: the declaration of the index type is not in `api.go`,
which never looks inside it. -/
structure bwRTree_t where
  rootOffset : Nat
  deriving DecidableEq, Repr

/-- Modelled from the spec: the declaration of `bigWigFile_t` is not in `api.go`;
the fields are the ones `api.go` reads and writes. -/
structure bigWigFile_t where
  URL : Option URL_t
  IsWrite : Bool
  Typ : Nat
  Hdr : Option bigWigHdr_t
  Cl : Option chromList_t
  Idx : Option bwRTree_t
  deriving DecidableEq, Repr

structure FileInfo_bw_out where
  Version : Nat
  NLevels : Nat
  FieldCount : Nat
  DefinedFieldCount : Nat
  Bufsize : Nat
  Extensionoffset : Nat
  NBasesCovered : Nat
  MinVal : float64
  MaxVal : float64
  SumData : float64
  SumSquared : float64
  deriving DecidableEq, Repr

structure Bigwig_file_out where
  bf_fp : Option bigWigFile_t
  Info : FileInfo_bw_out
  deriving DecidableEq, Repr

/-- Length of a slice whose nil-ness is tracked. -/
def sliceLen {α : Type} (s : Option (List α)) : Nat := (s.getD []).length

/-! ## Header getters -/

def GetVersion (fp : Bigwig_file_out) : Nat := fp.Info.Version
def GetNLevels (fp : Bigwig_file_out) : Nat := fp.Info.NLevels
def GetFieldCount (fp : Bigwig_file_out) : Nat := fp.Info.FieldCount
def GetDefinedFieldCount (fp : Bigwig_file_out) : Nat := fp.Info.DefinedFieldCount
def GetBufsize (fp : Bigwig_file_out) : Nat := fp.Info.Bufsize
def GetExtensionOffset (fp : Bigwig_file_out) : Nat := fp.Info.Extensionoffset
def GetNBasesCovered (fp : Bigwig_file_out) : Nat := fp.Info.NBasesCovered
def GetMinVal (fp : Bigwig_file_out) : float64 := fp.Info.MinVal
def GetMaxVal (fp : Bigwig_file_out) : float64 := fp.Info.MaxVal
def GetSumData (fp : Bigwig_file_out) : float64 := fp.Info.SumData
def GetSumSquared (fp : Bigwig_file_out) : float64 := fp.Info.SumSquared

/-! ## CloseBigWig -/

/-- `CloseBigWig`: closes the byte source when both the file and its source are
present; nothing else in the handle is touched. -/
def CloseBigWig (fp : Bigwig_file_out) : Bigwig_file_out :=
  match fp.bf_fp with
  | none => fp
  | some f =>
    match f.URL with
    | none => fp
    | some u => { fp with bf_fp := some { f with URL := some u.Close } }

/-! ## Chromosome listing -/

/-- The errors built with `fmt.Errorf` in `GetChromosomesLen` and `ShowChromosomes`. -/
inductive ChromError where
  | invalidFile
  | fpNil
  | clNil
  | chromNil
  | emptyName (i : Nat)
  | duplicateName (chrom : String)
  | noChromosomes
  deriving DecidableEq, Repr

/-- A Go `map[string]uint64` as an association list with distinct keys. -/
abbrev GoMap := List (String × Nat)

/-- The lookup `m[k]` with its presence flag. -/
def mapGet (m : GoMap) (k : String) : Option Nat :=
  match m with
  | [] => none
  | (k0, v0) :: t => if k0 = k then some v0 else mapGet t k

/-- The assignment `m[k] = v`. -/
def mapSet (m : GoMap) (k : String) (v : Nat) : GoMap :=
  match m with
  | [] => [(k, v)]
  | (k0, v0) :: t => if k0 = k then (k, v) :: t else (k0, v0) :: mapSet t k v

/-- The length read for chromosome `i`: `Len[i]` when present, else `0`. -/
def chromLength (Len : List Nat) (i : Nat) : Nat :=
  if i < Len.length then Len.getD i 0 else 0

/-- The loop of `GetChromosomesLen`; `totalLength` is a `uint64`. -/
def totalLoop (Len : List Nat) (nChrom : Nat) : Nat :=
  (List.range nChrom).foldl (fun totalLength i => (totalLength + chromLength Len i) % 2 ^ 64) 0

def GetChromosomesLen (fp : Bigwig_file_out) : Except ChromError Nat :=
  match fp.bf_fp with
  | none => .error .invalidFile
  | some f =>
    match f.Cl with
    | none => .error .invalidFile
    | some cl => .ok (totalLoop cl.Len (sliceLen cl.Chrom))

/-- The `range` loop of `ShowChromosomes` from index `i` on, with the map built so far. -/
def showLoop (Len : List Nat) : Nat → List String → GoMap → Except ChromError GoMap
  | _, [], chromInfo => .ok chromInfo
  | i, chrom :: rest, chromInfo =>
    if chrom = "" then .error (.emptyName i)
    else
      let length := chromLength Len i
      if (mapGet chromInfo chrom).isSome then .error (.duplicateName chrom)
      else showLoop Len (i + 1) rest (mapSet chromInfo chrom length)

def ShowChromosomes (fp : Bigwig_file_out) : Except ChromError GoMap :=
  match fp.bf_fp with
  | none => .error .fpNil
  | some f =>
    match f.Cl with
    | none => .error .clNil
    | some cl =>
      match cl.Chrom with
      | none => .error .chromNil
      | some chroms =>
        match showLoop cl.Len 0 chroms [] with
        | .error e => .error e
        | .ok chromInfo =>
          if chromInfo.length = 0 then .error .noChromosomes else .ok chromInfo

/-! ## Call log -/

/-- One call from `api.go` into the layers below it, with the arguments passed
(the file pointer apart). -/
inductive Call where
  | overlappingIntervalsIterator (chrom : String) (start end_ blocksPerIteration : Nat)
  | iteratorNext
  | zoomSelector (useClosest : Bool) (zhdr : Option bwZoomHdr_t) (desiredReduction : Nat)
  | valuesFromZoom (zoomIdx : Int) (chrom : String) (start end_ : Nat) (numBins : Int)
      (summaryType : String)
  deriving DecidableEq, Repr

/-! ## ReadBigWigSignal -/

/-- Modelled from the spec: the declaration of `bwOverlappingIntervals_t` is not in
`api.go`, which reads its fields `L` (a `uint32`) and `Value`. -/
structure bwOverlappingIntervals_t where
  L : Nat
  Value : List float32
  deriving DecidableEq, Repr

/-- Modelled from the spec: the declaration of `bwOverlapIterator_t` is not in
`api.go`, which reads `Data` (only compared with `nil`) and `Intervals`; `rest`
stands for the cursor state that only the iterator layer reads. -/
structure bwOverlapIterator_t (σ : Type) where
  Data : Option Unit
  Intervals : Option bwOverlappingIntervals_t
  rest : σ

/-- The iterator layer called by `ReadBigWigSignal`; both functions return a pointer. -/
structure IterLayer (σ : Type) where
  bwOverlappingIntervalsIterator :
    Option bigWigFile_t → String → Nat → Nat → Nat → Option (bwOverlapIterator_t σ)
  bwIteratorNext : bwOverlapIterator_t σ → Option (bwOverlapIterator_t σ)

/-- The `for iter.Data != nil` loop of `ReadBigWigSignal`. One unit of fuel is spent
per evaluation of the loop condition. `totalIntervals` is a `uint32`. -/
def readLoop {σ : Type} (env : IterLayer σ) :
    Nat → bwOverlapIterator_t σ → Nat → Nat → List float32 →
      Outcome (Option (List float32)) × List Call
  | 0, _, _, _, _ => (.outOfFuel, [])
  | fuel + 1, iter, totalIntervals, iterCount, output_float32 =>
    match iter.Data with
    | none => (.ret (some output_float32), [])
    | some _ =>
      let intervals := iter.Intervals
      let totalIntervals :=
        match intervals with
        | some iv => (totalIntervals + iv.L) % 2 ^ 32
        | none => totalIntervals
      match intervals with
      | none => (.nilDeref, [])
      | some iv =>
        let output_float32 := output_float32 ++ iv.Value
        match env.bwIteratorNext iter with
        | none => (.nilDeref, [Call.iteratorNext])
        | some iter =>
          let r := readLoop env fuel iter totalIntervals (iterCount + 1) output_float32
          (r.1, Call.iteratorNext :: r.2)

def ReadBigWigSignal {σ : Type} (env : IterLayer σ) (fuel : Nat) (fp : Bigwig_file_out)
    (chrom : String) (start end_ : Int) : Outcome (Option (List float32)) × List Call :=
  let start_uint32 := toUint32 start
  let end_uint32 := toUint32 end_
  let blocksPerIteration := 10
  let c := Call.overlappingIntervalsIterator chrom start_uint32 end_uint32 blocksPerIteration
  match env.bwOverlappingIntervalsIterator fp.bf_fp chrom start_uint32 end_uint32
      blocksPerIteration with
  | none => (.ret none, [c])
  | some iter =>
    let r := readLoop env fuel iter 0 0 []
    (r.1, c :: r.2)

/-- The state the iterator is in after `i` advances, when all of them returned an
iterator. -/
def stateAt {σ : Type} (env : IterLayer σ) (init : bwOverlapIterator_t σ) :
    Nat → Option (bwOverlapIterator_t σ)
  | 0 => some init
  | i + 1 => (stateAt env init i).bind env.bwIteratorNext

/-- The `Value` sequence of the `i`-th iterator state (empty when there is none). -/
def valuesAt {σ : Type} (env : IterLayer σ) (init : bwOverlapIterator_t σ) (i : Nat) :
    List float32 :=
  match stateAt env init i with
  | some s =>
    match s.Intervals with
    | some iv => iv.Value
    | none => []
  | none => []

/-- The `Value` sequences of the first `k` iterator states, appended in order. -/
def yielded {σ : Type} (env : IterLayer σ) (init : bwOverlapIterator_t σ) (k : Nat) :
    List float32 :=
  ((List.range k).map (valuesAt env init)).flatten

/-! ## GetZoomValues -/

/-- The layers called by `GetZoomValues`: the two selection policies and the zoom reader. -/
structure ZoomLayer where
  bwGetBestZoomClosest : Option bwZoomHdr_t → Nat → Int
  bwSelectBestZoomLevel : Option bwZoomHdr_t → Nat → Int
  bwGetValuesFromZoom :
    Option bigWigFile_t → Int → String → Nat → Nat → Int → String →
      Except String (Option (List float32))

/-- One execution of the body of the worker loop at index `j`; a goroutine only runs it
for `j < e <= len(values)`, so the read `values[j]` is in range. -/
def nanStep (values : List float32) (j : Nat) : List float32 :=
  if isNaN (values.getD j zero32) then values.set j zero32 else values

/-- A running goroutine of the replacement step: its loop variable `j` and bound `e`. -/
structure Worker where
  j : Nat
  e : Nat
  deriving DecidableEq, Repr

/-- The spawning loop `for i := 0; i < numCPU; i++`, from index `i` with `k` iterations
left; it yields the `(startIdx, endIdx)` arguments of the goroutines started, in order. -/
def spawnWorkers (n chunkSize : Nat) : Nat → Nat → List Worker
  | 0, _ => []
  | k + 1, i =>
    let startIdx := i * chunkSize
    let endIdx := if startIdx + chunkSize > n then n else startIdx + chunkSize
    if startIdx ≥ n then []
    else ⟨startIdx, endIdx⟩ :: spawnWorkers n chunkSize k (i + 1)

/-- The goroutines running until `wg.Wait()` returns. At each step the scheduler picks
one live goroutine (`sched` lists its choices, reduced modulo the number of live
goroutines); the chosen one tests `j < e`, then either runs the loop body once and
increments `j`, or terminates. -/
def runPool : Nat → List Nat → List float32 → List Worker → List float32
  | 0, _, values, _ => values
  | fuel + 1, sched, values, pool =>
    match pool with
    | [] => values
    | w0 :: _ =>
      let p := sched.headD 0 % pool.length
      let w := pool.getD p w0
      if w.j < w.e then
        runPool fuel sched.tail (nanStep values w.j)
          (pool.take p ++ { w with j := w.j + 1 } :: pool.drop (p + 1))
      else
        runPool fuel sched.tail values (pool.take p ++ pool.drop (p + 1))

/-- Number of scheduler steps until every goroutine of the pool has terminated: each one
runs its loop body `e - j` times and tests its loop condition once more. -/
def poolWork (pool : List Worker) : Nat := (pool.map (fun w => w.e - w.j + 1)).sum

/-- Index `idx` is still to be processed by some goroutine of the pool. -/
def covers (pool : List Worker) (idx : Nat) : Prop := ∃ w ∈ pool, w.j ≤ idx ∧ idx < w.e

/-- Lines 260-292 of `GetZoomValues`: the parallel replacement of NaN by 0.
`numCPU` is `runtime.NumCPU()`, which is at least 1; `wg.Wait()` returns when every
goroutine has terminated. -/
def replaceNaN (numCPU : Nat) (sched : List Nat) (values : Option (List float32)) :
    Option (List float32) :=
  let n := sliceLen values
  if n = 0 then values
  else
    let chunkSize := (n + numCPU - 1) / numCPU
    let pool := spawnWorkers n chunkSize numCPU 0
    some (runPool (poolWork pool) sched (values.getD []) pool)

/-- The replacement applied to one value. -/
def fixNaN (v : float32) : float32 := if isNaN v then zero32 else v

/-- The single-threaded replacement pass: one loop over the whole buffer. -/
def replaceSequential (values : List float32) : List float32 :=
  values.map fixNaN

def GetZoomValues (env : ZoomLayer) (numCPU : Nat) (sched : List Nat) (fp : Bigwig_file_out)
    (chrom : String) (start end_ numBins : Int) (useClosest : Bool) (desiredReduction : Int) :
    Outcome (Option (List float32)) × List Call :=
  let SummaryType := "mean"
  let IndexZoomModel :=
    if useClosest then env.bwGetBestZoomClosest else env.bwSelectBestZoomLevel
  match fp.bf_fp with
  | none => (.nilDeref, [])
  | some f =>
    match f.Hdr with
    | none => (.nilDeref, [])
    | some hdr =>
      match hdr.ZoomHdrs with
      | [] => (.ret none, [])
      | zhdr :: _ =>
        let zoomIdx := IndexZoomModel zhdr (toUint32 desiredReduction)
        let c1 := Call.zoomSelector useClosest zhdr (toUint32 desiredReduction)
        if zoomIdx < 0 then (.ret none, [c1])
        else
          let c2 := Call.valuesFromZoom zoomIdx chrom (toUint32 start) (toUint32 end_)
            numBins SummaryType
          match env.bwGetValuesFromZoom fp.bf_fp zoomIdx chrom (toUint32 start)
              (toUint32 end_) numBins SummaryType with
          | .error _ => (.ret none, [c1, c2])
          | .ok values => (.ret (replaceNaN numCPU sched values), [c1, c2])

/-! ## OpenBigWig -/

/-- The errors `OpenBigWig` builds, one per failing sub-step. -/
inductive OpenError where
  | probeFailed (e : String)
  | notBigWig
  | sourceFailed (e : String)
  | headerFailed (e : String)
  | chromListFailed (e : String)
  | indexFailed
  deriving DecidableEq, Repr

/-- The calls `OpenBigWig` makes, in the order made. -/
inductive Step where
  | bwisBigWig
  | Open
  | bwHdrRead
  | bwReadchromList
  | bwReadIndex
  | Close
  deriving DecidableEq, Repr

/-- The sub-steps of `OpenBigWig`. `bwHdrRead` receives the file pointer and fills it
in; the other readers return their result. -/
structure OpenLayer where
  bwisBigWig : String → Except String Bool
  Open : String → Except String URL_t
  bwHdrRead : bigWigFile_t → Except String bigWigFile_t
  bwReadchromList : bigWigFile_t → Except String (Option chromList_t)
  bwReadIndex : bigWigFile_t → Nat → Option bwRTree_t

/-- The `FileInfo_bw_out` literal of `OpenBigWig`. -/
def infoOf (hdr : bigWigHdr_t) : FileInfo_bw_out :=
  { Version := hdr.version
    NLevels := hdr.nLevels
    FieldCount := hdr.fieldCount
    DefinedFieldCount := hdr.definedFieldCount
    Bufsize := hdr.bufsize
    Extensionoffset := hdr.extensionoffset
    NBasesCovered := hdr.NBasesCovered
    MinVal := hdr.MinVal
    MaxVal := hdr.MaxVal
    SumData := hdr.SumData
    SumSquared := hdr.SumSquared }

/-- The `bigWigFile_t` literal of `OpenBigWig`: only `URL`, `IsWrite` and `Type` are set. -/
def newFile (url : URL_t) : bigWigFile_t :=
  { URL := some url, IsWrite := false, Typ := 0, Hdr := none, Cl := none, Idx := none }

def OpenBigWig (env : OpenLayer) (fname : String) :
    Outcome (Except OpenError Bigwig_file_out) × List Step :=
  match env.bwisBigWig fname with
  | .error e => (.ret (.error (.probeFailed e)), [.bwisBigWig])
  | .ok false => (.ret (.error .notBigWig), [.bwisBigWig])
  | .ok true =>
    match env.Open fname with
    | .error e => (.ret (.error (.sourceFailed e)), [.bwisBigWig, .Open])
    | .ok url =>
      let fp0 : bigWigFile_t := newFile url
      match env.bwHdrRead fp0 with
      | .error e =>
        (.ret (.error (.headerFailed e)), [.bwisBigWig, .Open, .bwHdrRead, .Close])
      | .ok fp1 =>
        match env.bwReadchromList fp1 with
        | .error e =>
          (.ret (.error (.chromListFailed e)),
            [.bwisBigWig, .Open, .bwHdrRead, .bwReadchromList, .Close])
        | .ok cl =>
          let fp2 : bigWigFile_t := { fp1 with Cl := cl }
          match env.bwReadIndex fp2 0 with
          | none =>
            (.ret (.error .indexFailed),
              [.bwisBigWig, .Open, .bwHdrRead, .bwReadchromList, .bwReadIndex, .Close])
          | some idx =>
            let fp3 : bigWigFile_t := { fp2 with Idx := some idx }
            match fp3.Hdr with
            | none =>
              (.nilDeref, [.bwisBigWig, .Open, .bwHdrRead, .bwReadchromList, .bwReadIndex])
            | some hdr =>
              (.ret (.ok { bf_fp := some fp3, Info := infoOf hdr }),
                [.bwisBigWig, .Open, .bwHdrRead, .bwReadchromList, .bwReadIndex])

/-! ## Example values -/

/-- A header with two zoom levels. -/
def exampleHdr : bigWigHdr_t :=
  { version := 4, nLevels := 2, fieldCount := 0, definedFieldCount := 0, bufsize := 32768,
    extensionoffset := 0, NBasesCovered := 350, MinVal := 0, MaxVal := 0, SumData := 0,
    SumSquared := 0,
    ZoomHdrs := [some { Level := [10, 100], IndexOffset := [1000, 2000],
                        DataOffset := [500, 1500] }] }

/-- The chromosome list of the example file. -/
def exampleChroms : chromList_t := { Chrom := some ["chr1", "chr2"], Len := [100, 250] }

/-- An open file with two chromosomes. -/
def exampleFile : bigWigFile_t :=
  { URL := some { fname := "a.bw", closed := false }, IsWrite := false, Typ := 0,
    Hdr := some exampleHdr, Cl := some exampleChroms, Idx := some { rootOffset := 3000 } }

/-- The handle `OpenBigWig` builds for `exampleFile`. -/
def exampleHandle : Bigwig_file_out := { bf_fp := some exampleFile, Info := infoOf exampleHdr }

/-- A zoom layer whose selectors pick level 1 and whose reader returns three bins,
two of them without data. -/
def exampleZoomLayer : ZoomLayer :=
  { bwGetBestZoomClosest := fun _ _ => 1
    bwSelectBestZoomLevel := fun _ _ => 1
    bwGetValuesFromZoom := fun _ _ _ _ _ _ _ => .ok (some [nan32, one32, nan32]) }

/-- An iterator layer that yields two batches, `[1.0, 1.0]` and `[NaN]`, and then an
iterator without data; `rest` counts the advances. -/
def exampleIterLayer : IterLayer Nat :=
  { bwOverlappingIntervalsIterator := fun _ _ _ _ _ =>
      some { Data := some (), Intervals := some { L := 2, Value := [one32, one32] }, rest := 0 }
    bwIteratorNext := fun it =>
      if it.rest = 0 then
        some { Data := some (), Intervals := some { L := 1, Value := [nan32] }, rest := 1 }
      else some { Data := none, Intervals := none, rest := it.rest + 1 } }

/-- An iterator layer whose first state has data but a nil `Intervals`. -/
def nilIntervalsLayer : IterLayer Nat :=
  { bwOverlappingIntervalsIterator := fun _ _ _ _ _ =>
      some { Data := some (), Intervals := none, rest := 0 }
    bwIteratorNext := fun it => some { Data := none, Intervals := none, rest := it.rest + 1 } }

/-- An iterator layer that yields the batch `[1.0, 1.0]`, then a state with data but a
nil `Intervals`, then an iterator without data. -/
def gapIterLayer : IterLayer Nat :=
  { bwOverlappingIntervalsIterator := fun _ _ _ _ _ =>
      some { Data := some (), Intervals := some { L := 2, Value := [one32, one32] }, rest := 0 }
    bwIteratorNext := fun it =>
      if it.rest = 0 then some { Data := some (), Intervals := none, rest := 1 }
      else some { Data := none, Intervals := none, rest := it.rest + 1 } }

/-- The first state of `gapIterLayer`. -/
def gapInit : bwOverlapIterator_t Nat :=
  { Data := some (), Intervals := some { L := 2, Value := [one32, one32] }, rest := 0 }

/-- An iterator layer whose advance returns a nil iterator. -/
def nilNextLayer : IterLayer Nat :=
  { bwOverlappingIntervalsIterator := fun _ _ _ _ _ =>
      some { Data := some (), Intervals := some { L := 1, Value := [one32] }, rest := 0 }
    bwIteratorNext := fun _ => none }

/-- A zoom layer where best-fit finds no level and the zoom reader fails. -/
def failingZoomLayer : ZoomLayer :=
  { bwGetBestZoomClosest := fun _ _ => 1
    bwSelectBestZoomLevel := fun _ _ => -1
    bwGetValuesFromZoom := fun _ _ _ _ _ _ _ => .error "read failed" }

/-- Sub-steps that all succeed and produce the parts of `exampleFile`. -/
def exampleOpenLayer : OpenLayer :=
  { bwisBigWig := fun _ => .ok true
    Open := fun fname => .ok { fname := fname, closed := false }
    bwHdrRead := fun f => .ok { f with Hdr := some exampleHdr }
    bwReadchromList := fun _ => .ok (some exampleChroms)
    bwReadIndex := fun _ _ => some { rootOffset := 3000 } }

/-! ## Chromosome listing: proofs -/

theorem chromLength_eq_getD (Len : List Nat) (i : Nat) : chromLength Len i = Len.getD i 0 := by
  unfold chromLength
  split
  · rfl
  · rename_i h
    simp only [List.getD_eq_getElem?_getD]
    rw [List.getElem?_eq_none (by omega)]
    rfl

theorem totalLoop_eq_sum_mod (Len : List Nat) (n : Nat) :
    totalLoop Len n = (∑ i in Finset.range n, Len.getD i 0) % 2 ^ 64 := by
  unfold totalLoop
  induction n with
  | zero => simp
  | succ n ih =>
    rw [List.range_succ, List.foldl_append, ih, Finset.sum_range_succ]
    simp only [List.foldl_cons, List.foldl_nil, chromLength_eq_getD]
    omega

theorem sum_lengths_lt (Len : List Nat) (n : Nat) (hU32 : ∀ l ∈ Len, l < 2 ^ 32)
    (hN : n ≤ 2 ^ 32) : (∑ i in Finset.range n, Len.getD i 0) < 2 ^ 64 := by
  have hb : ∀ i ∈ Finset.range n, Len.getD i 0 ≤ 2 ^ 32 - 1 := by
    intro i _
    by_cases h : i < Len.length
    · have := hU32 (Len[i]) (List.getElem_mem h)
      simp only [List.getD_eq_getElem?_getD, List.getElem?_eq_getElem h, Option.getD_some]
      omega
    · simp only [List.getD_eq_getElem?_getD]
      rw [List.getElem?_eq_none (by omega)]
      simp
  have h1 := Finset.sum_le_card_nsmul (Finset.range n) (fun i => Len.getD i 0) (2 ^ 32 - 1) hb
  simp only [Finset.card_range, smul_eq_mul] at h1
  have h2 : n * (2 ^ 32 - 1) ≤ 2 ^ 32 * (2 ^ 32 - 1) := Nat.mul_le_mul_right _ hN
  have h3 : (2 : Nat) ^ 32 * (2 ^ 32 - 1) < 2 ^ 64 := by norm_num
  omega

theorem mapGet_isSome_iff (m : GoMap) (k : String) :
    (mapGet m k).isSome = true ↔ k ∈ m.map Prod.fst := by
  induction m with
  | nil => simp [mapGet]
  | cons p t ih =>
    obtain ⟨k0, v0⟩ := p
    unfold mapGet
    by_cases h : k0 = k
    · simp [h]
    · have h' : ¬ k = k0 := fun e => h e.symm
      simp [h, h', ih]

theorem mapGet_append_single (m : GoMap) (k : String) (v : Nat) (h : k ∉ m.map Prod.fst) :
    mapGet (m ++ [(k, v)]) k = some v := by
  induction m with
  | nil => simp [mapGet]
  | cons p t ih =>
    obtain ⟨k0, v0⟩ := p
    simp only [List.map_cons, List.mem_cons, not_or] at h
    have h0 : ¬ k0 = k := fun e => h.1 e.symm
    simp only [List.cons_append, mapGet, h0, if_false]
    exact ih h.2

theorem mapSet_of_not_mem (m : GoMap) (k : String) (v : Nat) (h : k ∉ m.map Prod.fst) :
    mapSet m k v = m ++ [(k, v)] := by
  induction m with
  | nil => simp [mapSet]
  | cons p t ih =>
    obtain ⟨k0, v0⟩ := p
    simp only [List.map_cons, List.mem_cons, not_or] at h
    have h0 : ¬ k0 = k := fun e => h.1 e.symm
    simp only [mapSet, h0, if_false, List.cons_append, ih h.2]

/-- The loop of `ShowChromosomes` succeeds exactly when no remaining name is empty,
already in the map, or repeated; the map then gains one entry per remaining name. -/
theorem showLoop_ok_iff (Len : List Nat) (rest : List String) (i : Nat) (m m' : GoMap) :
    showLoop Len i rest m = .ok m' ↔
      ("" ∉ rest ∧ (∀ c ∈ rest, c ∉ m.map Prod.fst) ∧ rest.Nodup ∧
        m' = m ++ (rest.enumFrom i).map (fun p => (p.2, Len.getD p.1 0))) := by
  induction rest generalizing i m with
  | nil =>
    simp only [showLoop, List.enumFrom_nil, List.map_nil, List.append_nil, List.not_mem_nil,
      not_false_eq_true, List.nodup_nil, true_and, Except.ok.injEq, false_imp_iff, implies_true]
    exact eq_comm
  | cons c rest ih =>
    unfold showLoop
    by_cases hc : c = ""
    · simp [hc]
    · have hc' : ¬ "" = c := fun e => hc e.symm
      simp only [hc, if_false]
      by_cases hm : (mapGet m c).isSome = true
      · have hmem := (mapGet_isSome_iff m c).1 hm
        simp only [hm, if_true]
        constructor
        · intro h; cases h
        · rintro ⟨_, h2, _, _⟩
          exact absurd hmem (h2 c (List.mem_cons_self _ _))
      · have hnm : c ∉ m.map Prod.fst := fun h => hm ((mapGet_isSome_iff m c).2 h)
        simp only [hm, if_false, Bool.false_eq_true]
        rw [ih, mapSet_of_not_mem m c _ hnm, chromLength_eq_getD]
        simp only [List.mem_cons, not_or, List.nodup_cons, List.enumFrom_cons, List.map_cons,
          List.map_append, List.mem_append, List.map_nil, List.mem_singleton,
          List.append_assoc, List.singleton_append, forall_eq_or_imp]
        constructor
        · rintro ⟨h1, h2, h3, h4⟩
          refine ⟨⟨hc', h1⟩, ⟨hnm, fun x hx => (h2 x hx).1⟩, ⟨?_, h3⟩, h4⟩
          intro hcr
          exact (h2 c hcr).2.1 rfl
        · rintro ⟨⟨_, h1⟩, ⟨_, h2⟩, ⟨h3, h4⟩, h5⟩
          refine ⟨h1, fun x hx => ⟨h2 x hx, ?_, List.not_mem_nil _⟩, h4, h5⟩
          intro e
          exact h3 (e ▸ hx)

theorem ShowChromosomes_ok_iff (fp : Bigwig_file_out) (m : GoMap) :
    ShowChromosomes fp = .ok m ↔
      ∃ f cl chroms, fp.bf_fp = some f ∧ f.Cl = some cl ∧ cl.Chrom = some chroms ∧
        chroms ≠ [] ∧ "" ∉ chroms ∧ chroms.Nodup ∧
        m = (chroms.enumFrom 0).map (fun p => (p.2, cl.Len.getD p.1 0)) := by
  cases hf : fp.bf_fp with
  | none => simp [ShowChromosomes, hf]
  | some f =>
    cases hcl : f.Cl with
    | none => simp [ShowChromosomes, hf, hcl]
    | some cl =>
      cases hch : cl.Chrom with
      | none => simp [ShowChromosomes, hf, hcl, hch]
      | some chroms =>
        simp only [ShowChromosomes, hf, hcl, hch, Option.some.injEq, exists_and_left,
          exists_eq_left']
        cases hl : showLoop cl.Len 0 chroms [] with
        | error e =>
          constructor
          · intro h; cases h
          · rintro ⟨_, hemp, hnd, hm⟩
            have := (showLoop_ok_iff cl.Len chroms 0 [] m).2
              ⟨hemp, by simp, hnd, by simpa using hm⟩
            rw [hl] at this
            cases this
        | ok m0 =>
          have h0 := (showLoop_ok_iff cl.Len chroms 0 [] m0).1 hl
          obtain ⟨hemp, _, hnd, hm0⟩ := h0
          simp only [List.nil_append] at hm0
          have hlen : m0.length = chroms.length := by
            rw [hm0]; simp
          by_cases hz : chroms = []
          · subst hz
            simp at hlen
            simp [hlen]
          · have hpos : m0.length ≠ 0 := by
              rw [hlen]
              exact fun h => hz (List.length_eq_zero.1 h)
            simp only [hpos, if_false, Except.ok.injEq]
            constructor
            · intro h
              exact ⟨hz, hemp, hnd, h ▸ hm0⟩
            · rintro ⟨_, _, _, h⟩
              rw [h, hm0]

theorem except_error_iff_not_ok {ε α : Type} (x : Except ε α) :
    (∃ e, x = .error e) ↔ ¬ ∃ a, x = .ok a := by
  cases x with
  | error e => simp
  | ok a => simp

/-- C3. `ShowChromosomes` returns `(nil, error)` exactly when `bf_fp` is nil, or `Cl` is
nil, or the `Chrom` name list is nil or has no entries, or some name is the empty string,
or two entries carry the same name; in every other case it returns a map and no error. -/
theorem ShowChromosomes_fails_iff (fp : Bigwig_file_out) :
    ((∃ e, ShowChromosomes fp = .error e) ↔
      (fp.bf_fp = none ∨
        ∃ f, fp.bf_fp = some f ∧ (f.Cl = none ∨
          ∃ cl, f.Cl = some cl ∧ (cl.Chrom = none ∨
            ∃ chroms, cl.Chrom = some chroms ∧
              (chroms = [] ∨ "" ∈ chroms ∨ ¬ chroms.Nodup))))) ∧
    ((∃ m, ShowChromosomes fp = .ok m) ↔
      ¬ (fp.bf_fp = none ∨
        ∃ f, fp.bf_fp = some f ∧ (f.Cl = none ∨
          ∃ cl, f.Cl = some cl ∧ (cl.Chrom = none ∨
            ∃ chroms, cl.Chrom = some chroms ∧
              (chroms = [] ∨ "" ∈ chroms ∨ ¬ chroms.Nodup))))) := by
  have key : (∃ m, ShowChromosomes fp = .ok m) ↔
      ¬ (fp.bf_fp = none ∨
        ∃ f, fp.bf_fp = some f ∧ (f.Cl = none ∨
          ∃ cl, f.Cl = some cl ∧ (cl.Chrom = none ∨
            ∃ chroms, cl.Chrom = some chroms ∧
              (chroms = [] ∨ "" ∈ chroms ∨ ¬ chroms.Nodup)))) := by
    constructor
    · rintro ⟨m, hm⟩
      obtain ⟨f, cl, chroms, hf, hcl, hch, hne, hemp, hnd, _⟩ :=
        (ShowChromosomes_ok_iff fp m).1 hm
      rintro (h | ⟨f', hf', h⟩)
      · rw [hf] at h; cases h
      · rw [hf] at hf'; cases hf'
        rcases h with h | ⟨cl', hcl', h⟩
        · rw [hcl] at h; cases h
        · rw [hcl] at hcl'; cases hcl'
          rcases h with h | ⟨chroms', hch', h⟩
          · rw [hch] at h; cases h
          · rw [hch] at hch'; cases hch'
            rcases h with h | h | h
            · exact hne h
            · exact hemp h
            · exact h hnd
    · intro hbad
      cases hf : fp.bf_fp with
      | none => exact absurd (Or.inl hf) hbad
      | some f =>
        cases hcl : f.Cl with
        | none => exact absurd (Or.inr ⟨f, hf, Or.inl hcl⟩) hbad
        | some cl =>
          cases hch : cl.Chrom with
          | none => exact absurd (Or.inr ⟨f, hf, Or.inr ⟨cl, hcl, Or.inl hch⟩⟩) hbad
          | some chroms =>
            have hgood : chroms ≠ [] ∧ "" ∉ chroms ∧ chroms.Nodup := by
              refine ⟨?_, ?_, ?_⟩
              · intro h
                exact hbad (Or.inr ⟨f, hf, Or.inr ⟨cl, hcl, Or.inr ⟨chroms, hch, Or.inl h⟩⟩⟩)
              · intro h
                exact hbad (Or.inr ⟨f, hf, Or.inr ⟨cl, hcl, Or.inr
                  ⟨chroms, hch, Or.inr (Or.inl h)⟩⟩⟩)
              · by_contra h
                exact hbad (Or.inr ⟨f, hf, Or.inr ⟨cl, hcl, Or.inr
                  ⟨chroms, hch, Or.inr (Or.inr h)⟩⟩⟩)
            exact ⟨_, (ShowChromosomes_ok_iff fp _).2
              ⟨f, cl, chroms, hf, hcl, hch, hgood.1, hgood.2.1, hgood.2.2, rfl⟩⟩
  refine ⟨?_, key⟩
  rw [except_error_iff_not_ok, key, not_not]

theorem sum_map_range (g : Nat → Nat) (n : Nat) :
    ((List.range n).map g).sum = ∑ i in Finset.range n, g i := by
  induction n with
  | zero => simp
  | succ n ih => simp [List.range_succ, Finset.sum_range_succ, ih]

theorem mapGet_of_mem (m : GoMap) (k : String) (v : Nat) (hmem : (k, v) ∈ m)
    (hnd : (m.map Prod.fst).Nodup) : mapGet m k = some v := by
  induction m with
  | nil => cases hmem
  | cons p t ih =>
    obtain ⟨k0, v0⟩ := p
    simp only [List.map_cons, List.nodup_cons] at hnd
    unfold mapGet
    rcases List.mem_cons.1 hmem with h | h
    · cases h
      simp
    · have hk : k ∈ t.map Prod.fst := List.mem_map.2 ⟨(k, v), h, rfl⟩
      have h0 : ¬ k0 = k := fun e => hnd.1 (e ▸ hk)
      simp only [h0, if_false]
      exact ih h hnd.2

/-- C4. For a handle with a chromosome list, `GetChromosomesLen` returns the sum over
`i < len(Chrom)` of `Len[i]` (0 when `i >= len(Len)`) and no error; the `uint64`
accumulator cannot wrap as long as there are at most 2^32 chromosomes, each length being
a `uint32`. Whenever `ShowChromosomes` succeeds on the same handle, its map has exactly
one entry per chromosome name, mapped to that chromosome's length, and the values of the
map add up to the same total. -/
theorem GetChromosomesLen_total (fp : Bigwig_file_out) (f : bigWigFile_t) (cl : chromList_t)
    (hf : fp.bf_fp = some f) (hcl : f.Cl = some cl)
    (hU32 : ∀ l ∈ cl.Len, l < 2 ^ 32) (hN : sliceLen cl.Chrom ≤ 2 ^ 32) :
    GetChromosomesLen fp = .ok (∑ i in Finset.range (sliceLen cl.Chrom), cl.Len.getD i 0) ∧
    ∀ m, ShowChromosomes fp = .ok m →
      ∃ chroms, cl.Chrom = some chroms ∧ m.map Prod.fst = chroms ∧ chroms.Nodup ∧
        (∀ i (h : i < chroms.length), mapGet m chroms[i] = some (cl.Len.getD i 0)) ∧
        GetChromosomesLen fp = .ok (m.map Prod.snd).sum := by
  have hsum : GetChromosomesLen fp =
      .ok (∑ i in Finset.range (sliceLen cl.Chrom), cl.Len.getD i 0) := by
    simp only [GetChromosomesLen, hf, hcl, totalLoop_eq_sum_mod]
    rw [Nat.mod_eq_of_lt (sum_lengths_lt cl.Len _ hU32 hN)]
  refine ⟨hsum, ?_⟩
  intro m hm
  obtain ⟨f', cl', chroms, hf', hcl', hch, _, _, hnd, hmeq⟩ := (ShowChromosomes_ok_iff fp m).1 hm
  rw [hf] at hf'; cases hf'
  rw [hcl] at hcl'; cases hcl'
  have hkeys : m.map Prod.fst = chroms := by
    rw [hmeq, List.map_map]
    exact List.enumFrom_map_snd 0 chroms
  refine ⟨chroms, hch, hkeys, hnd, ?_, ?_⟩
  · intro i h
    apply mapGet_of_mem m _ _ _ (hkeys ▸ hnd)
    rw [hmeq]
    refine List.mem_map.2 ⟨(i, chroms[i]), ?_, rfl⟩
    rw [List.mk_mem_enumFrom_iff_le_and_getElem?_sub]
    simp [List.getElem?_eq_getElem h]
  · rw [hsum]
    congr 1
    have hvals : m.map Prod.snd = (List.range chroms.length).map (fun i => cl.Len.getD i 0) := by
      rw [hmeq, List.map_map]
      have : (Prod.snd ∘ fun p : Nat × String => (p.2, cl.Len.getD p.1 0)) =
          (fun i => cl.Len.getD i 0) ∘ Prod.fst := rfl
      rw [this, ← List.map_map, List.enumFrom_map_fst, List.range_eq_range']
    rw [hvals, sum_map_range]
    simp [sliceLen, hch]

theorem GetChromosomesLen_total_witness :
    GetChromosomesLen exampleHandle = .ok (∑ i in Finset.range 2, [100, 250].getD i 0) ∧
    ∀ m, ShowChromosomes exampleHandle = .ok m →
      ∃ chroms, exampleChroms.Chrom = some chroms ∧ m.map Prod.fst = chroms ∧ chroms.Nodup ∧
        (∀ i (h : i < chroms.length), mapGet m chroms[i] = some ([100, 250].getD i 0)) ∧
        GetChromosomesLen exampleHandle = .ok (m.map Prod.snd).sum :=
  GetChromosomesLen_total exampleHandle exampleFile exampleChroms rfl rfl
    (by decide) (by decide)

/-! ## The worker slices of the replacement step -/

theorem ceil_facts (n p : Nat) (hp : 1 ≤ p) (hn : 1 ≤ n) :
    1 ≤ (n + p - 1) / p ∧ n ≤ p * ((n + p - 1) / p) := by
  have h1 := Nat.div_add_mod (n + p - 1) p
  have h2 := Nat.mod_lt (n + p - 1) hp
  constructor
  · apply (Nat.le_div_iff_mul_le hp).2
    omega
  · omega

theorem lt_ceil_iff (n c t : Nat) (hc : 1 ≤ c) : t < (n + c - 1) / c ↔ t * c < n := by
  rw [Nat.lt_iff_add_one_le, Nat.le_div_iff_mul_le hc, Nat.add_mul]
  omega

/-- The slice handed to the `t`-th goroutine. -/
theorem spawnWorkers_eq_map (n c : Nat) (hc : 1 ≤ c) (k i : Nat) (hk : n ≤ (i + k) * c) :
    spawnWorkers n c k i =
      (List.range' i ((n + c - 1) / c - i)).map
        (fun t => (⟨t * c, min ((t + 1) * c) n⟩ : Worker)) := by
  induction k generalizing i with
  | zero =>
    have : ¬ i < (n + c - 1) / c := by
      rw [lt_ceil_iff n c i hc]
      simp only [Nat.add_zero] at hk
      omega
    have h0 : (n + c - 1) / c - i = 0 := by omega
    simp [spawnWorkers, h0]
  | succ k ih =>
    unfold spawnWorkers
    by_cases hi : i * c ≥ n
    · have : ¬ i < (n + c - 1) / c := by
        rw [lt_ceil_iff n c i hc]
        omega
      have h0 : (n + c - 1) / c - i = 0 := by omega
      simp [hi, h0]
    · have hlt : i < (n + c - 1) / c := by
        rw [lt_ceil_iff n c i hc]
        omega
      have hs : (n + c - 1) / c - i = ((n + c - 1) / c - (i + 1)) + 1 := by omega
      have hk' : n ≤ (i + 1 + k) * c := by
        have : i + 1 + k = i + (k + 1) := by omega
        rw [this]; exact hk
      simp only [hi, if_false]
      rw [ih (i + 1) hk', hs, List.range'_succ, List.map_cons]
      congr 1
      have : (i + 1) * c = i * c + c := by rw [Nat.add_mul]; omega
      rw [this]
      by_cases h : i * c + c > n
      · simp only [h, if_true]
        congr 1
        omega
      · simp only [h, if_false]
        congr 1
        omega

theorem spawnWorkers_all (n numCPU : Nat) (hn : 1 ≤ n) (hp : 1 ≤ numCPU) :
    spawnWorkers n ((n + numCPU - 1) / numCPU) numCPU 0 =
      (List.range ((n + (n + numCPU - 1) / numCPU - 1) / ((n + numCPU - 1) / numCPU))).map
        (fun t => (⟨t * ((n + numCPU - 1) / numCPU),
          min ((t + 1) * ((n + numCPU - 1) / numCPU)) n⟩ : Worker)) := by
  obtain ⟨hc, hcov⟩ := ceil_facts n numCPU hp hn
  rw [spawnWorkers_eq_map n _ hc numCPU 0 (by rw [Nat.zero_add]; exact hcov),
    List.range_eq_range', Nat.sub_zero]

theorem spawnWorkers_count_le (n numCPU : Nat) (hn : 1 ≤ n) (hp : 1 ≤ numCPU) :
    (n + (n + numCPU - 1) / numCPU - 1) / ((n + numCPU - 1) / numCPU) ≤ numCPU := by
  obtain ⟨hc, hcov⟩ := ceil_facts n numCPU hp hn
  by_contra h
  have h1 := (lt_ceil_iff n _ numCPU hc).1 (Nat.lt_of_not_le h)
  omega

/-- C7. For a buffer of length `n >= 1` and `numCPU >= 1`, with
`chunkSize = ceil(n / numCPU)`, the goroutines started by `GetZoomValues` are at most
`numCPU` in number; the `i`-th one receives `[i*chunkSize, min((i+1)*chunkSize, n))`;
every slice is non-empty and inside the buffer; the slices are consecutive (the first
starts at 0, each one starts where the previous one ends, the last ends at `n`), pairwise
disjoint, and every index below `n` lies in exactly one of them. -/
theorem spawnWorkers_partition (n numCPU : Nat) (hn : 1 ≤ n) (hp : 1 ≤ numCPU)
    (chunkSize : Nat) (hc : chunkSize = (n + numCPU - 1) / numCPU)
    (ws : List Worker) (hws : ws = spawnWorkers n chunkSize numCPU 0) :
    1 ≤ ws.length ∧ ws.length ≤ numCPU ∧
    (∀ i, i < ws.length →
      ws[i]? = some ⟨i * chunkSize, min ((i + 1) * chunkSize) n⟩) ∧
    (∀ w ∈ ws, w.j < w.e ∧ w.e ≤ n) ∧
    (ws.head?.map Worker.j = some 0 ∧ ws.getLast?.map Worker.e = some n ∧
      ∀ i a b, ws[i]? = some a → ws[i + 1]? = some b → a.e = b.j) ∧
    ws.Pairwise (fun a b => a.e ≤ b.j) ∧
    (∀ idx, idx < n ↔ ∃ w ∈ ws, w.j ≤ idx ∧ idx < w.e) ∧
    (∀ idx, idx < n → ∃! i : Nat, ∃ w : Worker, ws[i]? = some w ∧ w.j ≤ idx ∧ idx < w.e) := by
  subst hc
  obtain ⟨hc1, hcov⟩ := ceil_facts n numCPU hp hn
  have hcount := spawnWorkers_count_le n numCPU hn hp
  rw [spawnWorkers_all n numCPU hn hp] at hws
  generalize hcdef : (n + numCPU - 1) / numCPU = c at *
  generalize hmdef : (n + c - 1) / c = m at *
  have hlt : ∀ t, t < m ↔ t * c < n := fun t => by rw [← hmdef]; exact lt_ceil_iff n c t hc1
  have hm1 : 1 ≤ m := by
    have := (hlt 0).2 (by omega)
    omega
  have hlen : ws.length = m := by rw [hws]; simp
  have hget : ∀ i, i < m → ws[i]? = some ⟨i * c, min ((i + 1) * c) n⟩ := by
    intro i hi
    rw [hws, List.getElem?_map, List.getElem?_range hi]
    rfl
  have hnone : ∀ i, ¬ i < m → ws[i]? = none := by
    intro i hi
    apply List.getElem?_eq_none
    omega
  have hmem : ∀ w, w ∈ ws ↔ ∃ t, t < m ∧ w = ⟨t * c, min ((t + 1) * c) n⟩ := by
    intro w
    rw [hws, List.mem_map]
    constructor
    · rintro ⟨t, ht, rfl⟩
      exact ⟨t, List.mem_range.1 ht, rfl⟩
    · rintro ⟨t, ht, rfl⟩
      exact ⟨t, List.mem_range.2 ht, rfl⟩
  have hstep : ∀ t, (t + 1) * c = t * c + c := fun t => by rw [Nat.add_mul]; omega
  have hend : min (m * c) n = n := by
    have : ¬ m * c < n := fun h => Nat.lt_irrefl m ((hlt m).2 h)
    omega
  refine ⟨by omega, by omega, ?_, ?_, ⟨?_, ?_, ?_⟩, ?_, ?_, ?_⟩
  · intro i hi
    exact hget i (by omega)
  · intro w hw
    obtain ⟨t, ht, rfl⟩ := (hmem w).1 hw
    have := (hlt t).1 ht
    have := hstep t
    simp only
    omega
  · rw [List.head?_eq_getElem?, hget 0 (by omega)]
    simp
  · rw [List.getLast?_eq_getElem?, hlen, hget (m - 1) (by omega)]
    have h1 : m - 1 + 1 = m := by omega
    simp only [Option.map_some', h1, hend]
  · intro i a b ha hb
    have hi : i + 1 < m := by
      by_contra h
      rw [hnone (i + 1) h] at hb
      cases hb
    rw [hget i (by omega)] at ha
    rw [hget (i + 1) hi] at hb
    cases ha; cases hb
    have := (hlt (i + 1)).1 hi
    simp only
    omega
  · rw [hws, List.pairwise_map]
    refine List.Pairwise.imp ?_ (List.pairwise_lt_range m)
    intro a b hab
    have h1 : (a + 1) * c ≤ b * c := Nat.mul_le_mul_right c hab
    simp only
    omega
  · intro idx
    constructor
    · intro hidx
      have hdm := Nat.div_add_mod idx c
      have hml := Nat.mod_lt idx hc1
      have hcomm : c * (idx / c) = idx / c * c := Nat.mul_comm _ _
      have hq : idx / c < m := by rw [hlt]; omega
      refine ⟨⟨idx / c * c, min ((idx / c + 1) * c) n⟩, (hmem _).2 ⟨idx / c, hq, rfl⟩, ?_, ?_⟩
      · simp only; omega
      · have := hstep (idx / c)
        simp only; omega
    · rintro ⟨w, hw, _, h2⟩
      obtain ⟨t, _, rfl⟩ := (hmem w).1 hw
      simp only at h2
      omega
  · intro idx hidx
    have hdm := Nat.div_add_mod idx c
    have hml := Nat.mod_lt idx hc1
    have hcomm : c * (idx / c) = idx / c * c := Nat.mul_comm _ _
    have hq : idx / c < m := by rw [hlt]; omega
    refine ⟨idx / c, ⟨_, hget _ hq, ?_, ?_⟩, ?_⟩
    · simp only; omega
    · have := hstep (idx / c)
      simp only; omega
    · rintro t ⟨w, hw, h1, h2⟩
      have ht : t < m := by
        by_contra h
        rw [hnone t h] at hw
        cases hw
      rw [hget t ht] at hw
      cases hw
      simp only at h1 h2
      have h3 : idx < (t + 1) * c := by omega
      exact (Nat.div_eq_of_lt_le h1 h3).symm

theorem spawnWorkers_partition_witness :
    1 ≤ [(⟨0, 3⟩ : Worker), ⟨3, 5⟩].length ∧ [(⟨0, 3⟩ : Worker), ⟨3, 5⟩].length ≤ 2 ∧
    (∀ i, i < [(⟨0, 3⟩ : Worker), ⟨3, 5⟩].length →
      [(⟨0, 3⟩ : Worker), ⟨3, 5⟩][i]? = some ⟨i * 3, min ((i + 1) * 3) 5⟩) ∧
    (∀ w ∈ [(⟨0, 3⟩ : Worker), ⟨3, 5⟩], w.j < w.e ∧ w.e ≤ 5) ∧
    ([(⟨0, 3⟩ : Worker), ⟨3, 5⟩].head?.map Worker.j = some 0 ∧
      [(⟨0, 3⟩ : Worker), ⟨3, 5⟩].getLast?.map Worker.e = some 5 ∧
      ∀ i a b, [(⟨0, 3⟩ : Worker), ⟨3, 5⟩][i]? = some a →
        [(⟨0, 3⟩ : Worker), ⟨3, 5⟩][i + 1]? = some b → a.e = b.j) ∧
    [(⟨0, 3⟩ : Worker), ⟨3, 5⟩].Pairwise (fun a b => a.e ≤ b.j) ∧
    (∀ idx, idx < 5 ↔ ∃ w ∈ [(⟨0, 3⟩ : Worker), ⟨3, 5⟩], w.j ≤ idx ∧ idx < w.e) ∧
    (∀ idx, idx < 5 →
      ∃! i : Nat, ∃ w : Worker, [(⟨0, 3⟩ : Worker), ⟨3, 5⟩][i]? = some w ∧ w.j ≤ idx ∧ idx < w.e) :=
  spawnWorkers_partition 5 2 (by decide) (by decide) 3 (by decide) _ (by decide)

/-! ## The replacement step under any schedule -/

theorem fixNaN_idem (v : float32) : fixNaN (fixNaN v) = fixNaN v := by
  unfold fixNaN
  by_cases h : isNaN v = true
  · have : isNaN zero32 = false := by decide
    simp [h, this]
  · simp [h]

theorem nanStep_getElem? (values : List float32) (j idx : Nat) :
    (nanStep values j)[idx]? = if idx = j then values[idx]?.map fixNaN else values[idx]? := by
  unfold nanStep
  by_cases hj : j < values.length
  · have hg : values.getD j zero32 = values[j] := by
      simp [List.getD_eq_getElem?_getD, List.getElem?_eq_getElem hj]
    rw [hg]
    by_cases hnan : isNaN values[j] = true
    · simp only [hnan, if_true, List.getElem?_set]
      by_cases hidx : idx = j
      · subst hidx
        simp [hj, List.getElem?_eq_getElem hj, fixNaN, hnan]
      · have : ¬ j = idx := fun e => hidx e.symm
        simp [hidx, this]
    · simp only [hnan, if_false, Bool.false_eq_true]
      by_cases hidx : idx = j
      · subst hidx
        simp [List.getElem?_eq_getElem hj, fixNaN, hnan]
      · simp [hidx]
  · have hnone : values[j]? = none := List.getElem?_eq_none (by omega)
    have hset : values.set j zero32 = values := by
      apply List.ext_getElem?
      intro i
      rw [List.getElem?_set]
      by_cases hi : j = i
      · subst hi
        simp [hj, hnone]
      · simp [hi]
    by_cases hidx : idx = j
    · subst hidx
      simp [hset, hnone]
    · simp [hset, hidx]

theorem poolWork_append (a b : List Worker) : poolWork (a ++ b) = poolWork a + poolWork b := by
  simp [poolWork]

theorem poolWork_cons (w : Worker) (b : List Worker) :
    poolWork (w :: b) = (w.e - w.j + 1) + poolWork b := by
  simp [poolWork]

theorem covers_split (pre post : List Worker) (w : Worker) (idx : Nat) :
    covers (pre ++ w :: post) idx ↔
      (covers (pre ++ post) idx ∨ (w.j ≤ idx ∧ idx < w.e)) := by
  unfold covers
  constructor
  · rintro ⟨x, hx, h⟩
    rcases List.mem_append.1 hx with hx | hx
    · exact Or.inl ⟨x, List.mem_append.2 (Or.inl hx), h⟩
    · rcases List.mem_cons.1 hx with hx | hx
      · subst hx
        exact Or.inr h
      · exact Or.inl ⟨x, List.mem_append.2 (Or.inr hx), h⟩
  · rintro (⟨x, hx, h⟩ | h)
    · rcases List.mem_append.1 hx with hx | hx
      · exact ⟨x, List.mem_append.2 (Or.inl hx), h⟩
      · exact ⟨x, List.mem_append.2 (Or.inr (List.mem_cons_of_mem _ hx)), h⟩
    · exact ⟨w, List.mem_append.2 (Or.inr (List.mem_cons_self _ _)), h⟩

theorem pool_split (pool : List Worker) (w0 : Worker) (p : Nat) (hp : p < pool.length) :
    pool = pool.take p ++ pool.getD p w0 :: pool.drop (p + 1) := by
  have h1 : pool.getD p w0 = pool[p] := by
    simp [List.getD_eq_getElem?_getD, List.getElem?_eq_getElem hp]
  rw [h1, ← List.drop_eq_getElem_cons hp, List.take_append_drop]

theorem runPool_getElem? (fuel : Nat) :
    ∀ (sched : List Nat) (values : List float32) (pool : List Worker),
      poolWork pool ≤ fuel → ∀ idx,
        (covers pool idx →
          (runPool fuel sched values pool)[idx]? = values[idx]?.map fixNaN) ∧
        (¬ covers pool idx → (runPool fuel sched values pool)[idx]? = values[idx]?) := by
  induction fuel with
  | zero =>
    intro sched values pool hwork idx
    cases pool with
    | nil => simp [runPool, covers]
    | cons w0 t =>
      rw [poolWork_cons] at hwork
      omega
  | succ fuel ih =>
    intro sched values pool hwork idx
    cases pool with
    | nil => simp [runPool, covers]
    | cons w0 t =>
      have hp : sched.headD 0 % (w0 :: t).length < (w0 :: t).length :=
        Nat.mod_lt _ (by simp)
      have hsplit := pool_split (w0 :: t) w0 _ hp
      generalize hpre : (w0 :: t).take (sched.headD 0 % (w0 :: t).length) = pre at hsplit
      generalize hpost : (w0 :: t).drop (sched.headD 0 % (w0 :: t).length + 1) = post
        at hsplit
      generalize hwdef : (w0 :: t).getD (sched.headD 0 % (w0 :: t).length) w0 = w at hsplit
      have hcov := covers_split pre post w idx
      rw [← hsplit] at hcov
      have hwk : poolWork (w0 :: t) = poolWork pre + ((w.e - w.j + 1) + poolWork post) := by
        rw [hsplit, poolWork_append, poolWork_cons]
      simp only [runPool, hpre, hpost, hwdef]
      by_cases hlt : w.j < w.e
      · simp only [hlt, if_true]
        have hwk' : poolWork (pre ++ { w with j := w.j + 1 } :: post) ≤ fuel := by
          rw [poolWork_append, poolWork_cons]
          simp only
          omega
        have hih := ih sched.tail (nanStep values w.j) _ hwk' idx
        have hcov' := covers_split pre post { w with j := w.j + 1 } idx
        simp only at hcov'
        rw [nanStep_getElem?] at hih
        by_cases hidx : idx = w.j
        · have hc : covers (w0 :: t) idx := hcov.2 (Or.inr ⟨by omega, by omega⟩)
          simp only [hidx, if_true] at hih
          refine ⟨fun _ => ?_, fun h => absurd hc h⟩
          by_cases hc' : covers (pre ++ { w with j := w.j + 1 } :: post) w.j
          · rw [hidx, hih.1 hc']
            cases values[w.j]? with
            | none => rfl
            | some v => simp [fixNaN_idem]
          · rw [hidx, hih.2 hc']
        · simp only [hidx, if_false] at hih
          have hiff : covers (pre ++ { w with j := w.j + 1 } :: post) idx ↔
              covers (w0 :: t) idx := by
            rw [hcov, hcov']
            constructor
            · rintro (h | h)
              · exact Or.inl h
              · exact Or.inr ⟨by omega, h.2⟩
            · rintro (h | h)
              · exact Or.inl h
              · exact Or.inr ⟨by omega, h.2⟩
          exact ⟨fun h => hih.1 (hiff.2 h), fun h => hih.2 (fun h' => h (hiff.1 h'))⟩
      · simp only [hlt, if_false]
        have hwk' : poolWork (pre ++ post) ≤ fuel := by
          rw [poolWork_append]
          omega
        have hih := ih sched.tail values _ hwk' idx
        have hiff : covers (pre ++ post) idx ↔ covers (w0 :: t) idx := by
          rw [hcov]
          constructor
          · exact fun h => Or.inl h
          · rintro (h | h)
            · exact h
            · omega
        exact ⟨fun h => hih.1 (hiff.2 h), fun h => hih.2 (fun h' => h (hiff.1 h'))⟩

theorem spawnWorkers_covers (n numCPU : Nat) (hn : 1 ≤ n) (hp : 1 ≤ numCPU) (idx : Nat) :
    covers (spawnWorkers n ((n + numCPU - 1) / numCPU) numCPU 0) idx ↔ idx < n := by
  obtain ⟨hc1, _⟩ := ceil_facts n numCPU hp hn
  rw [spawnWorkers_all n numCPU hn hp]
  generalize (n + numCPU - 1) / numCPU = c at *
  have hlt : ∀ t, t < (n + c - 1) / c ↔ t * c < n := fun t => lt_ceil_iff n c t hc1
  unfold covers
  constructor
  · rintro ⟨w, hw, _, h2⟩
    obtain ⟨t, _, rfl⟩ := List.mem_map.1 hw
    simp only at h2
    omega
  · intro hidx
    have hdm := Nat.div_add_mod idx c
    have hml := Nat.mod_lt idx hc1
    have hcomm : c * (idx / c) = idx / c * c := Nat.mul_comm _ _
    have hstep : (idx / c + 1) * c = idx / c * c + c := by rw [Nat.add_mul]; omega
    have hq : idx / c < (n + c - 1) / c := by rw [hlt]; omega
    refine ⟨⟨idx / c * c, min ((idx / c + 1) * c) n⟩,
      List.mem_map.2 ⟨idx / c, List.mem_range.2 hq, rfl⟩, ?_, ?_⟩
    · simp only; omega
    · simp only; omega

/-- Whatever the scheduler does, the goroutines leave the buffer the single-threaded
pass would leave. -/
theorem replaceNaN_eq (numCPU : Nat) (sched : List Nat) (values : Option (List float32))
    (hp : 1 ≤ numCPU) : replaceNaN numCPU sched values = values.map replaceSequential := by
  unfold replaceNaN
  cases values with
  | none => simp [sliceLen]
  | some vs =>
    by_cases hz : vs.length = 0
    · have : vs = [] := List.length_eq_zero.1 hz
      subst this
      simp [sliceLen, replaceSequential]
    · have hn : 1 ≤ vs.length := by omega
      simp only [sliceLen, Option.getD_some, hz, if_false, Option.map_some', Option.some.injEq]
      apply List.ext_getElem?
      intro idx
      have h := runPool_getElem? _ sched vs
        (spawnWorkers vs.length ((vs.length + numCPU - 1) / numCPU) numCPU 0)
        (Nat.le_refl _) idx
      have hcov := spawnWorkers_covers vs.length numCPU hn hp idx
      by_cases hidx : idx < vs.length
      · rw [h.1 (hcov.2 hidx)]
        simp [replaceSequential]
      · rw [h.2 (fun hc => hidx (hcov.1 hc))]
        rw [List.getElem?_eq_none (by omega), List.getElem?_eq_none]
        simp only [replaceSequential, List.length_map]
        omega

/-- C2. When `GetZoomValues` reaches the zoom reader and the reader returns `values`,
then for every worker count `numCPU >= 1` and every schedule of the goroutines the
result is what one single-threaded pass over `values` gives: same length, 0 at every
position that held a NaN, the input value at every other position; an all-NaN input of
length `k` gives `k` zeros. -/
theorem GetZoomValues_replaces_like_one_pass (env : ZoomLayer) (numCPU : Nat)
    (sched : List Nat) (fp : Bigwig_file_out) (chrom : String) (start end_ numBins : Int)
    (useClosest : Bool) (desiredReduction : Int)
    (f : bigWigFile_t) (hdr : bigWigHdr_t) (zhdr : Option bwZoomHdr_t)
    (zs : List (Option bwZoomHdr_t)) (values : Option (List float32))
    (hp : 1 ≤ numCPU) (hf : fp.bf_fp = some f) (hh : f.Hdr = some hdr)
    (hz : hdr.ZoomHdrs = zhdr :: zs)
    (hsel : 0 ≤ (if useClosest then env.bwGetBestZoomClosest else env.bwSelectBestZoomLevel)
      zhdr (toUint32 desiredReduction))
    (hval : env.bwGetValuesFromZoom fp.bf_fp
      ((if useClosest then env.bwGetBestZoomClosest else env.bwSelectBestZoomLevel)
        zhdr (toUint32 desiredReduction))
      chrom (toUint32 start) (toUint32 end_) numBins "mean" = .ok values) :
    ∃ out,
      (GetZoomValues env numCPU sched fp chrom start end_ numBins useClosest
        desiredReduction).1 = .ret out ∧
      out = values.map replaceSequential ∧
      sliceLen out = sliceLen values ∧
      (∀ (i : Nat) (v : float32), (values.getD [])[i]? = some v → isNaN v = true →
        (out.getD [])[i]? = some zero32) ∧
      (∀ (i : Nat) (v : float32), (values.getD [])[i]? = some v → isNaN v = false →
        (out.getD [])[i]? = some v) ∧
      ((∀ v ∈ values.getD [], isNaN v = true) →
        out.getD [] = List.replicate (sliceLen values) zero32) := by
  have hnot : ¬ (if useClosest then env.bwGetBestZoomClosest else env.bwSelectBestZoomLevel)
      zhdr (toUint32 desiredReduction) < 0 := by omega
  refine ⟨values.map replaceSequential, ?_, rfl, ?_, ?_, ?_, ?_⟩
  · simp only [GetZoomValues, hf, hh, hz, hnot, if_false]
    rw [hf] at hval
    rw [hval]
    simp only [replaceNaN_eq numCPU sched values hp]
  · cases values <;> simp [sliceLen, replaceSequential]
  · intro i v hv hnan
    cases values with
    | none => simp at hv
    | some vs =>
      simp only [Option.getD_some] at hv
      simp [replaceSequential, hv, fixNaN, hnan]
  · intro i v hv hnan
    cases values with
    | none => simp at hv
    | some vs =>
      simp only [Option.getD_some] at hv
      simp [replaceSequential, hv, fixNaN, hnan]
  · intro hall
    cases values with
    | none => simp [sliceLen]
    | some vs =>
      simp only [Option.getD_some] at hall
      simp only [Option.map_some', Option.getD_some, sliceLen, replaceSequential]
      rw [List.eq_replicate_iff]
      refine ⟨by simp, ?_⟩
      intro b hb
      obtain ⟨v, hv, rfl⟩ := List.mem_map.1 hb
      simp [fixNaN, hall v hv]

theorem GetZoomValues_replaces_like_one_pass_witness :
    ∃ out,
      (GetZoomValues exampleZoomLayer 2 [1, 0, 1] exampleHandle "chr1" 0 90 3 false 10).1
        = .ret out ∧
      out = (some [nan32, one32, nan32]).map replaceSequential ∧
      sliceLen out = sliceLen (some [nan32, one32, nan32]) ∧
      (∀ (i : Nat) (v : float32), ((some [nan32, one32, nan32]).getD [])[i]? = some v → isNaN v = true →
        (out.getD [])[i]? = some zero32) ∧
      (∀ (i : Nat) (v : float32), ((some [nan32, one32, nan32]).getD [])[i]? = some v → isNaN v = false →
        (out.getD [])[i]? = some v) ∧
      ((∀ v ∈ (some [nan32, one32, nan32]).getD [], isNaN v = true) →
        out.getD [] = List.replicate (sliceLen (some [nan32, one32, nan32])) zero32) :=
  GetZoomValues_replaces_like_one_pass exampleZoomLayer 2 [1, 0, 1] exampleHandle "chr1"
    0 90 3 false 10 exampleFile exampleHdr _ _ (some [nan32, one32, nan32])
    (by decide) rfl rfl rfl (by decide) rfl

/-! ## ReadBigWigSignal -/

theorem stateAt_succ {σ : Type} (env : IterLayer σ) (init : bwOverlapIterator_t σ) (i : Nat) :
    stateAt env init (i + 1) = (env.bwIteratorNext init).bind (fun s => stateAt env s i) := by
  induction i with
  | zero => simp [stateAt]
  | succ i ih =>
    rw [stateAt, ih]
    cases env.bwIteratorNext init with
    | none => rfl
    | some s => simp [stateAt]

theorem yielded_succ {σ : Type} (env : IterLayer σ) (init next : bwOverlapIterator_t σ)
    (hnext : env.bwIteratorNext init = some next) (k : Nat) :
    yielded env init (k + 1) = valuesAt env init 0 ++ yielded env next k := by
  unfold yielded
  rw [List.range_succ_eq_map, List.map_cons, List.flatten_cons, List.map_map]
  congr 2
  apply List.map_congr_left
  intro i _
  simp only [Function.comp, valuesAt, stateAt_succ, hnext, Option.some_bind]

/-- The loop appends the `Value` sequences of the `k` states that precede the first
state without data, and advances the iterator `k` times. -/
theorem readLoop_spec {σ : Type} (env : IterLayer σ) (k : Nat) :
    ∀ (fuel : Nat) (iter : bwOverlapIterator_t σ) (totalIntervals iterCount : Nat)
      (output : List float32),
      k < fuel →
      (∀ i, i < k → ∃ s iv, stateAt env iter i = some s ∧ s.Data ≠ none ∧
        s.Intervals = some iv) →
      (∃ t, stateAt env iter k = some t ∧ t.Data = none) →
      readLoop env fuel iter totalIntervals iterCount output =
        (.ret (some (output ++ yielded env iter k)), List.replicate k Call.iteratorNext) := by
  induction k with
  | zero =>
    intro fuel iter totalIntervals iterCount output hfuel _ hend
    obtain ⟨t, ht, hdata⟩ := hend
    simp only [stateAt, Option.some.injEq] at ht
    subst ht
    obtain ⟨fuel, rfl⟩ : ∃ g, fuel = g + 1 := ⟨fuel - 1, by omega⟩
    simp [readLoop, hdata, yielded]
  | succ k ih =>
    intro fuel iter totalIntervals iterCount output hfuel hstates hend
    obtain ⟨fuel, rfl⟩ : ∃ g, fuel = g + 1 := ⟨fuel - 1, by omega⟩
    obtain ⟨s, iv, hs, hdata, hiv⟩ := hstates 0 (by omega)
    simp only [stateAt, Option.some.injEq] at hs
    subst hs
    obtain ⟨t, ht, htdata⟩ := hend
    rw [stateAt_succ] at ht
    cases hnext : env.bwIteratorNext iter with
    | none => rw [hnext] at ht; cases ht
    | some next =>
      rw [hnext, Option.some_bind] at ht
      have hstates' : ∀ i, i < k → ∃ s iv, stateAt env next i = some s ∧ s.Data ≠ none ∧
          s.Intervals = some iv := by
        intro i hi
        have := hstates (i + 1) (by omega)
        rw [stateAt_succ, hnext, Option.some_bind] at this
        exact this
      have hrec := ih fuel next ((totalIntervals + iv.L) % 2 ^ 32) (iterCount + 1)
        (output ++ iv.Value) (by omega) hstates' ⟨t, ht, htdata⟩
      obtain ⟨u, hu⟩ := Option.ne_none_iff_exists'.1 hdata
      have hval : valuesAt env iter 0 = iv.Value := by simp [valuesAt, stateAt, hiv]
      rw [readLoop]
      simp only [hu, hiv, hnext, hrec, yielded_succ env iter next hnext, hval,
        List.append_assoc, List.replicate_succ]

/-- Where no nil pointer is met. When the iterator constructor returns nil,
`ReadBigWigSignal` returns nil. When it
returns an iterator whose first `k` states have data (each with its `Intervals`) and whose
state after `k` advances has no data, `ReadBigWigSignal` returns (given fuel for the
`k + 1` tests of the loop condition) exactly the `Value` sequences of those `k` states
appended in iteration order, and it advances the iterator exactly `k` times. -/
theorem ReadBigWigSignal_concatenates {σ : Type} (env : IterLayer σ) (fp : Bigwig_file_out)
    (chrom : String) (start end_ : Int) :
    (env.bwOverlappingIntervalsIterator fp.bf_fp chrom (toUint32 start) (toUint32 end_) 10
        = none →
      ∀ fuel, (ReadBigWigSignal env fuel fp chrom start end_).1 = .ret none) ∧
    (∀ (init : bwOverlapIterator_t σ) (k : Nat),
      env.bwOverlappingIntervalsIterator fp.bf_fp chrom (toUint32 start) (toUint32 end_) 10
        = some init →
      (∀ i, i < k → ∃ s iv, stateAt env init i = some s ∧ s.Data ≠ none ∧
        s.Intervals = some iv) →
      (∃ t, stateAt env init k = some t ∧ t.Data = none) →
      ∀ fuel, k < fuel →
        ReadBigWigSignal env fuel fp chrom start end_ =
          (.ret (some (yielded env init k)),
            Call.overlappingIntervalsIterator chrom (toUint32 start) (toUint32 end_) 10 ::
              List.replicate k Call.iteratorNext)) := by
  constructor
  · intro hnil fuel
    simp only [ReadBigWigSignal, hnil]
  · intro init k hinit hstates hend fuel hfuel
    simp only [ReadBigWigSignal, hinit, readLoop_spec env k fuel init 0 0 [] hfuel hstates hend,
      List.nil_append]

theorem ReadBigWigSignal_concatenates_witness :
    ReadBigWigSignal exampleIterLayer 3 exampleHandle "chr1" 0 100 =
      (.ret (some (yielded exampleIterLayer
          { Data := some (), Intervals := some { L := 2, Value := [one32, one32] }, rest := 0 }
          2)),
        Call.overlappingIntervalsIterator "chr1" (toUint32 0) (toUint32 100) 10 ::
          List.replicate 2 Call.iteratorNext) :=
  (ReadBigWigSignal_concatenates exampleIterLayer exampleHandle "chr1" 0 100).2
    { Data := some (), Intervals := some { L := 2, Value := [one32, one32] }, rest := 0 } 2 rfl
    (by
      intro i hi
      rcases (by omega : i = 0 ∨ i = 1) with h | h
      · subst h
        exact ⟨_, _, rfl, Option.some_ne_none (), rfl⟩
      · subst h
        exact ⟨_, _, rfl, Option.some_ne_none (), rfl⟩)
    ⟨_, rfl, rfl⟩ 3 (by decide)

/-- C1, evaluated on the code. `gapIterLayer` returns a non-nil iterator whose states
0 and 1 have data and whose state 2 is the first without data; state 0 carries
`[1.0, 1.0]` and state 1 has a nil `Intervals`, so the `Value` sequences of the states
before the first one without data append to `[1.0, 1.0]`. `ReadBigWigSignal` does not
return that: it panics on state 1, where `intervals.Value` is read outside the
`if intervals != nil` test. -/
theorem ReadBigWigSignal_loses_concatenation (fuel : Nat) :
    gapIterLayer.bwOverlappingIntervalsIterator exampleHandle.bf_fp "chr1" (toUint32 0)
      (toUint32 100) 10 = some gapInit ∧
    (stateAt gapIterLayer gapInit 0).map (fun s => s.Data) = some (some ()) ∧
    (stateAt gapIterLayer gapInit 1).map (fun s => s.Data) = some (some ()) ∧
    (stateAt gapIterLayer gapInit 1).map (fun s => s.Intervals) = some none ∧
    (stateAt gapIterLayer gapInit 2).map (fun s => s.Data) = some none ∧
    yielded gapIterLayer gapInit 2 = [one32, one32] ∧
    (ReadBigWigSignal gapIterLayer (fuel + 2) exampleHandle "chr1" 0 100).1
      = Outcome.nilDeref ∧
    (ReadBigWigSignal gapIterLayer (fuel + 2) exampleHandle "chr1" 0 100).1
      ≠ Outcome.ret (some (yielded gapIterLayer gapInit 2)) := by
  have hrun : (ReadBigWigSignal gapIterLayer (fuel + 2) exampleHandle "chr1" 0 100).1
      = Outcome.nilDeref := rfl
  refine ⟨rfl, rfl, rfl, rfl, rfl, rfl, hrun, ?_⟩
  rw [hrun]
  intro h
  cases h

/-- C9, evaluated on the code. `ReadBigWigSignal` panics with a nil dereference when the
iterator state has data and a nil `Intervals` (the read `intervals.Value` stands outside
the `if intervals != nil` test), and when `bwIteratorNext` returns a nil iterator (the
loop condition then reads `iter.Data`). -/
theorem ReadBigWigSignal_nil_dereference (fuel : Nat) :
    (ReadBigWigSignal nilIntervalsLayer (fuel + 1) exampleHandle "chr1" 0 100).1
      = Outcome.nilDeref ∧
    (ReadBigWigSignal nilNextLayer (fuel + 1) exampleHandle "chr1" 0 100).1
      = Outcome.nilDeref := by
  constructor <;> rfl

/-! ## Coordinates -/

theorem toUint32_eq (x : Int) : toUint32 x = (x % 2 ^ 32).toNat := by
  cases x with
  | ofNat n =>
    simp only [toUint32, Int.ofNat_eq_coe]
    omega
  | negSucc n =>
    simp only [toUint32, Int.negSucc_eq]
    omega

theorem toUint32_periodic (x k : Int) : toUint32 (x + k * 2 ^ 32) = toUint32 x := by
  rw [toUint32_eq, toUint32_eq, Int.add_mul_emod_self]

theorem GetZoomValues_calls (env : ZoomLayer) (numCPU : Nat) (sched : List Nat)
    (fp : Bigwig_file_out) (chrom : String) (start end_ numBins : Int) (useClosest : Bool)
    (desiredReduction : Int) (c : Call)
    (hc : c ∈ (GetZoomValues env numCPU sched fp chrom start end_ numBins useClosest
      desiredReduction).2) :
    (∃ zhdr, c = Call.zoomSelector useClosest zhdr (toUint32 desiredReduction)) ∨
    (∃ zoomIdx, c = Call.valuesFromZoom zoomIdx chrom (toUint32 start) (toUint32 end_)
      numBins "mean") := by
  cases hf : fp.bf_fp with
  | none => simp [GetZoomValues, hf] at hc
  | some f =>
    cases hh : f.Hdr with
    | none => simp [GetZoomValues, hf, hh] at hc
    | some hdr =>
      cases hz : hdr.ZoomHdrs with
      | nil => simp [GetZoomValues, hf, hh, hz] at hc
      | cons zhdr zs =>
        simp only [GetZoomValues, hf, hh, hz] at hc
        by_cases hneg : (if useClosest then env.bwGetBestZoomClosest
            else env.bwSelectBestZoomLevel) zhdr (toUint32 desiredReduction) < 0
        · simp only [hneg, if_true, List.mem_singleton] at hc
          exact Or.inl ⟨zhdr, hc⟩
        · simp only [hneg, if_false] at hc
          cases hv : env.bwGetValuesFromZoom (some f)
              ((if useClosest then env.bwGetBestZoomClosest
                else env.bwSelectBestZoomLevel) zhdr (toUint32 desiredReduction))
              chrom (toUint32 start) (toUint32 end_) numBins "mean" with
          | error e =>
            simp only [hv, List.mem_cons, List.mem_singleton, List.not_mem_nil, or_false] at hc
            rcases hc with hc | hc
            · exact Or.inl ⟨zhdr, hc⟩
            · exact Or.inr ⟨_, hc⟩
          | ok values =>
            simp only [hv, List.mem_cons, List.mem_singleton, List.not_mem_nil, or_false] at hc
            rcases hc with hc | hc
            · exact Or.inl ⟨zhdr, hc⟩
            · exact Or.inr ⟨_, hc⟩

/-- C10. `uint32(x)` of an `int` is `x mod 2^32`: a coordinate in `[0, 2^32)` is passed
unchanged, any other one is wrapped, never rejected. `ReadBigWigSignal` calls the iterator
constructor with `start mod 2^32` and `end mod 2^32` and returns what the loop makes of
that iterator. On a handle with a zoom header, `GetZoomValues` first calls the selected
policy with `desiredReduction mod 2^32`; when the index is not negative it then calls the
zoom reader with `start mod 2^32` and `end mod 2^32` and returns what the replacement
step makes of the reader's values. Every logged call carries the reduced values, and two
queries whose coordinates differ by multiples of `2^32` give identical results and make
identical calls. -/
theorem query_coordinates_mod_two_pow_32 {σ : Type} (ienv : IterLayer σ) (zenv : ZoomLayer)
    (fuel numCPU : Nat) (sched : List Nat) (fp : Bigwig_file_out) (chrom : String)
    (start end_ numBins : Int) (useClosest : Bool) (desiredReduction : Int) :
    (∀ x : Int, (toUint32 x : Int) = x % 2 ^ 32) ∧
    (∀ x : Int, 0 ≤ x → x < 2 ^ 32 → (toUint32 x : Int) = x) ∧
    (∀ x : Int, (x < 0 ∨ 2 ^ 32 ≤ x) → (toUint32 x : Int) ≠ x) ∧
    (ReadBigWigSignal ienv fuel fp chrom start end_).2.head? =
      some (Call.overlappingIntervalsIterator chrom (start % 2 ^ 32).toNat
        (end_ % 2 ^ 32).toNat 10) ∧
    (∀ c ∈ (GetZoomValues zenv numCPU sched fp chrom start end_ numBins useClosest
        desiredReduction).2,
      (∃ zhdr, c = Call.zoomSelector useClosest zhdr (desiredReduction % 2 ^ 32).toNat) ∨
      (∃ zoomIdx, c = Call.valuesFromZoom zoomIdx chrom (start % 2 ^ 32).toNat
        (end_ % 2 ^ 32).toNat numBins "mean")) ∧
    (∀ a b d : Int,
      ReadBigWigSignal ienv fuel fp chrom (start + a * 2 ^ 32) (end_ + b * 2 ^ 32) =
        ReadBigWigSignal ienv fuel fp chrom start end_ ∧
      GetZoomValues zenv numCPU sched fp chrom (start + a * 2 ^ 32) (end_ + b * 2 ^ 32)
          numBins useClosest (desiredReduction + d * 2 ^ 32) =
        GetZoomValues zenv numCPU sched fp chrom start end_ numBins useClosest
          desiredReduction) ∧
    (ReadBigWigSignal ienv fuel fp chrom start end_ =
      match ienv.bwOverlappingIntervalsIterator fp.bf_fp chrom (start % 2 ^ 32).toNat
          (end_ % 2 ^ 32).toNat 10 with
      | none =>
        (.ret none,
          [Call.overlappingIntervalsIterator chrom (start % 2 ^ 32).toNat
            (end_ % 2 ^ 32).toNat 10])
      | some iter =>
        ((readLoop ienv fuel iter 0 0 []).1,
          Call.overlappingIntervalsIterator chrom (start % 2 ^ 32).toNat
            (end_ % 2 ^ 32).toNat 10 :: (readLoop ienv fuel iter 0 0 []).2)) ∧
    (∀ f hdr zhdr zs, fp.bf_fp = some f → f.Hdr = some hdr → hdr.ZoomHdrs = zhdr :: zs →
      (GetZoomValues zenv numCPU sched fp chrom start end_ numBins useClosest
          desiredReduction).2.head? =
        some (Call.zoomSelector useClosest zhdr (desiredReduction % 2 ^ 32).toNat) ∧
      ((if useClosest then zenv.bwGetBestZoomClosest else zenv.bwSelectBestZoomLevel)
          zhdr (desiredReduction % 2 ^ 32).toNat < 0 →
        GetZoomValues zenv numCPU sched fp chrom start end_ numBins useClosest
            desiredReduction =
          (.ret none,
            [Call.zoomSelector useClosest zhdr (desiredReduction % 2 ^ 32).toNat])) ∧
      (0 ≤ (if useClosest then zenv.bwGetBestZoomClosest else zenv.bwSelectBestZoomLevel)
          zhdr (desiredReduction % 2 ^ 32).toNat →
        GetZoomValues zenv numCPU sched fp chrom start end_ numBins useClosest
            desiredReduction =
          ((match zenv.bwGetValuesFromZoom fp.bf_fp
              ((if useClosest then zenv.bwGetBestZoomClosest
                else zenv.bwSelectBestZoomLevel) zhdr (desiredReduction % 2 ^ 32).toNat)
              chrom (start % 2 ^ 32).toNat (end_ % 2 ^ 32).toNat numBins "mean" with
            | .error _ => .ret none
            | .ok values => .ret (replaceNaN numCPU sched values)),
            [Call.zoomSelector useClosest zhdr (desiredReduction % 2 ^ 32).toNat,
              Call.valuesFromZoom
                ((if useClosest then zenv.bwGetBestZoomClosest
                  else zenv.bwSelectBestZoomLevel) zhdr (desiredReduction % 2 ^ 32).toNat)
                chrom (start % 2 ^ 32).toNat (end_ % 2 ^ 32).toNat numBins "mean"]))) := by
  refine ⟨?_, ?_, ?_, ?_, ?_, ?_, ?_, ?_⟩
  · intro x
    rw [toUint32_eq]
    omega
  · intro x h0 h1
    rw [toUint32_eq]
    omega
  · intro x h
    rw [toUint32_eq]
    omega
  · rw [← toUint32_eq, ← toUint32_eq]
    cases h : ienv.bwOverlappingIntervalsIterator fp.bf_fp chrom (toUint32 start)
      (toUint32 end_) 10 <;> simp only [ReadBigWigSignal, h, List.head?_cons]
  · intro c hc
    rw [← toUint32_eq, ← toUint32_eq, ← toUint32_eq]
    exact GetZoomValues_calls zenv numCPU sched fp chrom start end_ numBins useClosest
      desiredReduction c hc
  · intro a b d
    constructor
    · unfold ReadBigWigSignal
      simp only [toUint32_periodic]
    · unfold GetZoomValues
      simp only [toUint32_periodic]
  · rw [← toUint32_eq, ← toUint32_eq]
    cases h : ienv.bwOverlappingIntervalsIterator fp.bf_fp chrom (toUint32 start)
      (toUint32 end_) 10 <;> simp only [ReadBigWigSignal, h]
  · intro f hdr zhdr zs hf hh hz
    rw [← toUint32_eq, ← toUint32_eq, ← toUint32_eq]
    refine ⟨?_, ?_, ?_⟩
    · by_cases hneg : (if useClosest then zenv.bwGetBestZoomClosest
          else zenv.bwSelectBestZoomLevel) zhdr (toUint32 desiredReduction) < 0
      · simp only [GetZoomValues, hf, hh, hz, hneg, if_true, List.head?_cons]
      · simp only [GetZoomValues, hf, hh, hz, hneg, if_false]
        cases zenv.bwGetValuesFromZoom (some f)
            ((if useClosest then zenv.bwGetBestZoomClosest
              else zenv.bwSelectBestZoomLevel) zhdr (toUint32 desiredReduction))
            chrom (toUint32 start) (toUint32 end_) numBins "mean" <;> rfl
    · intro hneg
      simp only [GetZoomValues, hf, hh, hz, hneg, if_true]
    · intro hpos
      have hneg : ¬ (if useClosest then zenv.bwGetBestZoomClosest
          else zenv.bwSelectBestZoomLevel) zhdr (toUint32 desiredReduction) < 0 := by omega
      simp only [GetZoomValues, hf, hh, hz, hneg, if_false]
      cases zenv.bwGetValuesFromZoom (some f)
          ((if useClosest then zenv.bwGetBestZoomClosest
            else zenv.bwSelectBestZoomLevel) zhdr (toUint32 desiredReduction))
          chrom (toUint32 start) (toUint32 end_) numBins "mean" <;> rfl

theorem query_coordinates_mod_two_pow_32_witness :
    GetZoomValues exampleZoomLayer 2 [] exampleHandle "chr1" (-1) (4294967296 + 90) 3 false
        (-10) =
      ((match exampleZoomLayer.bwGetValuesFromZoom exampleHandle.bf_fp
          ((if false = true then exampleZoomLayer.bwGetBestZoomClosest
            else exampleZoomLayer.bwSelectBestZoomLevel)
            (some { Level := [10, 100], IndexOffset := [1000, 2000],
                    DataOffset := [500, 1500] })
            (((-10 : Int)) % 2 ^ 32).toNat)
          "chr1" (((-1 : Int)) % 2 ^ 32).toNat (((4294967296 + 90 : Int)) % 2 ^ 32).toNat 3
          "mean" with
        | .error _ => .ret none
        | .ok values => .ret (replaceNaN 2 [] values)),
        [Call.zoomSelector false
            (some { Level := [10, 100], IndexOffset := [1000, 2000],
                    DataOffset := [500, 1500] })
            (((-10 : Int)) % 2 ^ 32).toNat,
          Call.valuesFromZoom
            ((if false = true then exampleZoomLayer.bwGetBestZoomClosest
              else exampleZoomLayer.bwSelectBestZoomLevel)
              (some { Level := [10, 100], IndexOffset := [1000, 2000],
                      DataOffset := [500, 1500] })
              (((-10 : Int)) % 2 ^ 32).toNat)
            "chr1" (((-1 : Int)) % 2 ^ 32).toNat (((4294967296 + 90 : Int)) % 2 ^ 32).toNat 3
            "mean"]) :=
  ((query_coordinates_mod_two_pow_32 exampleIterLayer exampleZoomLayer 3 2 [] exampleHandle
      "chr1" (-1) (4294967296 + 90) 3 false (-10)).2.2.2.2.2.2.2
    exampleFile exampleHdr _ _ rfl rfl rfl).2.2 (by decide)

/-! ## GetZoomValues: no suitable level -/

/-- C5. On a handle with a header: without zoom headers `GetZoomValues` returns nil and
calls nothing; when the selected policy returns a negative index for
`(ZoomHdrs[0], uint32(desiredReduction))` it returns nil having called the selector only,
so the zoom reader is never invoked; when the zoom reader returns an error it returns
nil. -/
theorem GetZoomValues_no_suitable_level (env : ZoomLayer) (numCPU : Nat) (sched : List Nat)
    (fp : Bigwig_file_out) (chrom : String) (start end_ numBins : Int) (useClosest : Bool)
    (desiredReduction : Int) (f : bigWigFile_t) (hdr : bigWigHdr_t)
    (hf : fp.bf_fp = some f) (hh : f.Hdr = some hdr) :
    (hdr.ZoomHdrs = [] →
      GetZoomValues env numCPU sched fp chrom start end_ numBins useClosest desiredReduction
        = (.ret none, [])) ∧
    (∀ zhdr zs, hdr.ZoomHdrs = zhdr :: zs →
      (if useClosest then env.bwGetBestZoomClosest else env.bwSelectBestZoomLevel)
        zhdr (toUint32 desiredReduction) < 0 →
      GetZoomValues env numCPU sched fp chrom start end_ numBins useClosest desiredReduction
        = (.ret none, [Call.zoomSelector useClosest zhdr (toUint32 desiredReduction)])) ∧
    (∀ zhdr zs e, hdr.ZoomHdrs = zhdr :: zs →
      env.bwGetValuesFromZoom fp.bf_fp
        ((if useClosest then env.bwGetBestZoomClosest else env.bwSelectBestZoomLevel)
          zhdr (toUint32 desiredReduction))
        chrom (toUint32 start) (toUint32 end_) numBins "mean" = .error e →
      (GetZoomValues env numCPU sched fp chrom start end_ numBins useClosest
        desiredReduction).1 = .ret none) := by
  refine ⟨?_, ?_, ?_⟩
  · intro hz
    simp only [GetZoomValues, hf, hh, hz]
  · intro zhdr zs hz hneg
    simp only [GetZoomValues, hf, hh, hz, hneg, if_true]
  · intro zhdr zs e hz herr
    rw [hf] at herr
    by_cases hneg : (if useClosest then env.bwGetBestZoomClosest
        else env.bwSelectBestZoomLevel) zhdr (toUint32 desiredReduction) < 0
    · simp only [GetZoomValues, hf, hh, hz, hneg, if_true]
    · simp only [GetZoomValues, hf, hh, hz, hneg, if_false, herr]

theorem GetZoomValues_no_suitable_level_witness :
    GetZoomValues failingZoomLayer 4 [] exampleHandle "chr1" 0 100 3 false 500
        = (.ret none, [Call.zoomSelector false
            (some { Level := [10, 100], IndexOffset := [1000, 2000], DataOffset := [500, 1500] })
            (toUint32 500)]) ∧
    (GetZoomValues failingZoomLayer 4 [] exampleHandle "chr1" 0 100 3 true 500).1
        = .ret none :=
  ⟨(GetZoomValues_no_suitable_level failingZoomLayer 4 [] exampleHandle "chr1" 0 100 3 false
      500 exampleFile exampleHdr rfl rfl).2.1 _ _ rfl (by decide),
   (GetZoomValues_no_suitable_level failingZoomLayer 4 [] exampleHandle "chr1" 0 100 3 true
      500 exampleFile exampleHdr rfl rfl).2.2 _ _ "read failed" rfl rfl⟩

/-! ## OpenBigWig -/

/-- C6. With the five sub-steps as fallible inputs (a successful header read leaving a
header in the file), `OpenBigWig` returns a handle exactly when the probe reports a
BigWig file and every sub-step succeeds, and the handle then carries the header,
chromosome list and index the sub-steps produced; otherwise it returns no handle and the
error of the first failing sub-step, and no later sub-step is called (after a failure
past the source open, only `Close` follows). -/
theorem OpenBigWig_all_or_nothing (env : OpenLayer) (fname : String)
    (hHdr : ∀ f f', env.bwHdrRead f = .ok f' → f'.Hdr ≠ none) :
    (∀ e, env.bwisBigWig fname = .error e →
      OpenBigWig env fname = (.ret (.error (.probeFailed e)), [.bwisBigWig])) ∧
    (env.bwisBigWig fname = .ok false →
      OpenBigWig env fname = (.ret (.error .notBigWig), [.bwisBigWig])) ∧
    (∀ e, env.bwisBigWig fname = .ok true → env.Open fname = .error e →
      OpenBigWig env fname = (.ret (.error (.sourceFailed e)), [.bwisBigWig, .Open])) ∧
    (∀ url e, env.bwisBigWig fname = .ok true → env.Open fname = .ok url →
      env.bwHdrRead (newFile url) = .error e →
      OpenBigWig env fname =
        (.ret (.error (.headerFailed e)), [.bwisBigWig, .Open, .bwHdrRead, .Close])) ∧
    (∀ url fp1 e, env.bwisBigWig fname = .ok true → env.Open fname = .ok url →
      env.bwHdrRead (newFile url) = .ok fp1 → env.bwReadchromList fp1 = .error e →
      OpenBigWig env fname =
        (.ret (.error (.chromListFailed e)),
          [.bwisBigWig, .Open, .bwHdrRead, .bwReadchromList, .Close])) ∧
    (∀ url fp1 cl, env.bwisBigWig fname = .ok true → env.Open fname = .ok url →
      env.bwHdrRead (newFile url) = .ok fp1 → env.bwReadchromList fp1 = .ok cl →
      env.bwReadIndex { fp1 with Cl := cl } 0 = none →
      OpenBigWig env fname =
        (.ret (.error .indexFailed),
          [.bwisBigWig, .Open, .bwHdrRead, .bwReadchromList, .bwReadIndex, .Close])) ∧
    (∀ url fp1 cl idx, env.bwisBigWig fname = .ok true → env.Open fname = .ok url →
      env.bwHdrRead (newFile url) = .ok fp1 → env.bwReadchromList fp1 = .ok cl →
      env.bwReadIndex { fp1 with Cl := cl } 0 = some idx →
      ∃ hdr, fp1.Hdr = some hdr ∧
        OpenBigWig env fname =
          (.ret (.ok { bf_fp := some { fp1 with Cl := cl, Idx := some idx },
                       Info := infoOf hdr }),
            [.bwisBigWig, .Open, .bwHdrRead, .bwReadchromList, .bwReadIndex])) ∧
    ((∃ h, (OpenBigWig env fname).1 = .ret (.ok h)) ↔
      (env.bwisBigWig fname = .ok true ∧
        ∃ url fp1 cl idx, env.Open fname = .ok url ∧
          env.bwHdrRead (newFile url) = .ok fp1 ∧ env.bwReadchromList fp1 = .ok cl ∧
          env.bwReadIndex { fp1 with Cl := cl } 0 = some idx)) ∧
    ((∃ h, (OpenBigWig env fname).1 = .ret (.ok h)) ∨
      (∃ e, (OpenBigWig env fname).1 = .ret (.error e))) := by
  have hsucc : ∀ url fp1 cl idx, env.bwisBigWig fname = .ok true → env.Open fname = .ok url →
      env.bwHdrRead (newFile url) = .ok fp1 → env.bwReadchromList fp1 = .ok cl →
      env.bwReadIndex { fp1 with Cl := cl } 0 = some idx →
      ∃ hdr, fp1.Hdr = some hdr ∧
        OpenBigWig env fname =
          (.ret (.ok { bf_fp := some { fp1 with Cl := cl, Idx := some idx },
                       Info := infoOf hdr }),
            [.bwisBigWig, .Open, .bwHdrRead, .bwReadchromList, .bwReadIndex]) := by
    intro url fp1 cl idx h1 h2 h3 h4 h5
    obtain ⟨hdr, hhdr⟩ := Option.ne_none_iff_exists'.1 (hHdr _ _ h3)
    refine ⟨hdr, hhdr, ?_⟩
    simp only [OpenBigWig, h1, h2, h3, h4, h5]
    simp only [hhdr]
  refine ⟨?_, ?_, ?_, ?_, ?_, ?_, hsucc, ?_, ?_⟩
  · intro e h1
    simp only [OpenBigWig, h1]
  · intro h1
    simp only [OpenBigWig, h1]
  · intro e h1 h2
    simp only [OpenBigWig, h1, h2]
  · intro url e h1 h2 h3
    simp only [OpenBigWig, h1, h2, h3]
  · intro url fp1 e h1 h2 h3 h4
    simp only [OpenBigWig, h1, h2, h3, h4]
  · intro url fp1 cl h1 h2 h3 h4 h5
    simp only [OpenBigWig, h1, h2, h3, h4, h5]
  · constructor
    · rintro ⟨h, hh⟩
      cases h1 : env.bwisBigWig fname with
      | error e => simp [OpenBigWig, h1] at hh
      | ok isBw =>
        cases isBw with
        | false => simp [OpenBigWig, h1] at hh
        | true =>
          refine ⟨rfl, ?_⟩
          cases h2 : env.Open fname with
          | error e => simp [OpenBigWig, h1, h2] at hh
          | ok url =>
            cases h3 : env.bwHdrRead (newFile url) with
            | error e => simp [OpenBigWig, h1, h2, h3] at hh
            | ok fp1 =>
              cases h4 : env.bwReadchromList fp1 with
              | error e => simp [OpenBigWig, h1, h2, h3, h4] at hh
              | ok cl =>
                cases h5 : env.bwReadIndex { fp1 with Cl := cl } 0 with
                | none => simp [OpenBigWig, h1, h2, h3, h4, h5] at hh
                | some idx => exact ⟨url, fp1, cl, idx, rfl, h3, h4, h5⟩
    · rintro ⟨h1, url, fp1, cl, idx, h2, h3, h4, h5⟩
      obtain ⟨hdr, _, heq⟩ := hsucc url fp1 cl idx h1 h2 h3 h4 h5
      exact ⟨_, by rw [heq]⟩
  · cases h1 : env.bwisBigWig fname with
    | error e => exact Or.inr ⟨_, by simp only [OpenBigWig, h1]; rfl⟩
    | ok isBw =>
      cases isBw with
      | false => exact Or.inr ⟨_, by simp only [OpenBigWig, h1]; rfl⟩
      | true =>
        cases h2 : env.Open fname with
        | error e => exact Or.inr ⟨_, by simp only [OpenBigWig, h1, h2]; rfl⟩
        | ok url =>
          cases h3 : env.bwHdrRead (newFile url) with
          | error e => exact Or.inr ⟨_, by simp only [OpenBigWig, h1, h2, h3]; rfl⟩
          | ok fp1 =>
            cases h4 : env.bwReadchromList fp1 with
            | error e => exact Or.inr ⟨_, by simp only [OpenBigWig, h1, h2, h3, h4]; rfl⟩
            | ok cl =>
              cases h5 : env.bwReadIndex { fp1 with Cl := cl } 0 with
              | none => exact Or.inr ⟨_, by simp only [OpenBigWig, h1, h2, h3, h4, h5]; rfl⟩
              | some idx =>
                obtain ⟨hdr, _, heq⟩ := hsucc url fp1 cl idx h1 h2 h3 h4 h5
                exact Or.inl ⟨_, by rw [heq]⟩

theorem OpenBigWig_all_or_nothing_witness :
    ∃ hdr, (exampleFile.Hdr = some hdr) ∧
      OpenBigWig exampleOpenLayer "a.bw" =
        (.ret (.ok { bf_fp := some exampleFile, Info := infoOf hdr }),
          [.bwisBigWig, .Open, .bwHdrRead, .bwReadchromList, .bwReadIndex]) :=
  (OpenBigWig_all_or_nothing exampleOpenLayer "a.bw"
    (by
      intro f f' h
      simp only [exampleOpenLayer, Except.ok.injEq] at h
      subst h
      exact Option.some_ne_none _)).2.2.2.2.2.2.1
    { fname := "a.bw", closed := false }
    { newFile { fname := "a.bw", closed := false } with Hdr := some exampleHdr }
    (some exampleChroms) { rootOffset := 3000 } rfl rfl rfl rfl rfl

/-! ## CloseBigWig -/

/-- C8, refuted as stated. After `CloseBigWig` the byte source of the example handle is
closed, yet `ShowChromosomes`, `GetChromosomesLen` and the header getters return their
normal results, not a closed-handle failure. -/
theorem closed_handle_still_answers :
    ((CloseBigWig exampleHandle).bf_fp.bind bigWigFile_t.URL).map URL_t.closed = some true ∧
    ShowChromosomes (CloseBigWig exampleHandle) = .ok [("chr1", 100), ("chr2", 250)] ∧
    GetChromosomesLen (CloseBigWig exampleHandle) = .ok 350 ∧
    GetVersion (CloseBigWig exampleHandle) = 4 ∧
    GetNLevels (CloseBigWig exampleHandle) = 2 := by
  refine ⟨rfl, ?_, ?_, rfl, rfl⟩
  · simp [ShowChromosomes, CloseBigWig, exampleHandle, exampleFile, exampleChroms, showLoop,
      mapGet, mapSet, chromLength]
  · simp [GetChromosomesLen, CloseBigWig, exampleHandle, exampleFile, exampleChroms,
      totalLoop, sliceLen, chromLength, List.range_succ]

theorem CloseBigWig_parsed_state (fp : Bigwig_file_out) :
    (CloseBigWig fp).Info = fp.Info ∧
    (CloseBigWig fp).bf_fp.map bigWigFile_t.Hdr = fp.bf_fp.map bigWigFile_t.Hdr ∧
    (CloseBigWig fp).bf_fp.map bigWigFile_t.Cl = fp.bf_fp.map bigWigFile_t.Cl ∧
    (CloseBigWig fp).bf_fp.map bigWigFile_t.Idx = fp.bf_fp.map bigWigFile_t.Idx ∧
    (CloseBigWig fp).bf_fp.map bigWigFile_t.URL =
      fp.bf_fp.map (fun f => f.URL.map URL_t.Close) := by
  unfold CloseBigWig
  cases hf : fp.bf_fp with
  | none => simp [hf]
  | some f =>
    cases hu : f.URL with
    | none => simp [hf, hu]
    | some u => simp [hu]

theorem CloseBigWig_chrom (fp : Bigwig_file_out) :
    ShowChromosomes (CloseBigWig fp) = ShowChromosomes fp ∧
    GetChromosomesLen (CloseBigWig fp) = GetChromosomesLen fp := by
  unfold CloseBigWig
  cases hf : fp.bf_fp with
  | none => simp [hf, ShowChromosomes, GetChromosomesLen]
  | some f =>
    cases hu : f.URL with
    | none => simp [hf, hu, ShowChromosomes, GetChromosomesLen]
    | some u => simp [hf, hu, ShowChromosomes, GetChromosomesLen]

theorem GetZoomValues_log_of_hdr (env : ZoomLayer) (numCPU : Nat) (sched : List Nat)
    (fp fp' : Bigwig_file_out) (chrom : String) (start end_ numBins : Int)
    (useClosest : Bool) (desiredReduction : Int)
    (h : fp'.bf_fp.map bigWigFile_t.Hdr = fp.bf_fp.map bigWigFile_t.Hdr) :
    (GetZoomValues env numCPU sched fp' chrom start end_ numBins useClosest
      desiredReduction).2 =
    (GetZoomValues env numCPU sched fp chrom start end_ numBins useClosest
      desiredReduction).2 := by
  cases hf : fp.bf_fp with
  | none =>
    cases hf' : fp'.bf_fp with
    | none => simp [GetZoomValues, hf, hf']
    | some f' => simp [hf, hf'] at h
  | some f =>
    cases hf' : fp'.bf_fp with
    | none => simp [hf, hf'] at h
    | some f' =>
      simp only [hf, hf', Option.map_some', Option.some.injEq] at h
      cases hh : f.Hdr with
      | none => simp [GetZoomValues, hf, hf', h, hh]
      | some hdr =>
        rw [hh] at h
        cases hz : hdr.ZoomHdrs with
        | nil => simp [GetZoomValues, hf, hf', h, hh, hz]
        | cons zhdr zs =>
          simp only [GetZoomValues, hf, hf', h, hh, hz]
          by_cases hneg : (if useClosest then env.bwGetBestZoomClosest
              else env.bwSelectBestZoomLevel) zhdr (toUint32 desiredReduction) < 0
          · simp only [hneg, if_true]
          · simp only [hneg, if_false]
            cases env.bwGetValuesFromZoom (some f')
                ((if useClosest then env.bwGetBestZoomClosest
                  else env.bwSelectBestZoomLevel) zhdr (toUint32 desiredReduction))
                chrom (toUint32 start) (toUint32 end_) numBins "mean" <;>
              cases env.bwGetValuesFromZoom (some f)
                ((if useClosest then env.bwGetBestZoomClosest
                  else env.bwSelectBestZoomLevel) zhdr (toUint32 desiredReduction))
                chrom (toUint32 start) (toUint32 end_) numBins "mean" <;> rfl

theorem CloseBigWig_whole (fp : Bigwig_file_out) :
    CloseBigWig fp =
      { bf_fp := fp.bf_fp.map (fun f =>
          { URL := f.URL.map (fun u => { fname := u.fname, closed := true }),
            IsWrite := f.IsWrite, Typ := f.Typ, Hdr := f.Hdr, Cl := f.Cl, Idx := f.Idx }),
        Info := fp.Info } ∧
    (CloseBigWig fp).bf_fp.map bigWigFile_t.IsWrite = fp.bf_fp.map bigWigFile_t.IsWrite ∧
    (CloseBigWig fp).bf_fp.map bigWigFile_t.Typ = fp.bf_fp.map bigWigFile_t.Typ := by
  obtain ⟨bf, info⟩ := fp
  cases bf with
  | none => simp [CloseBigWig]
  | some f =>
    obtain ⟨url, w, t, h, c, i⟩ := f
    cases url with
    | none => simp [CloseBigWig]
    | some u => simp [CloseBigWig, URL_t.Close]

/-- C8, amended. `CloseBigWig` closes the byte source and changes nothing else in the
handle: the handle after the close is the handle before it with the `closed` flag of its
source set, every other field (`Info`, `IsWrite`, `Type`, `Hdr`, `Cl`, `Idx`, the source
name) being the same. No facade operation tests for a closed handle: after the close,
`ShowChromosomes`, `GetChromosomesLen` and the header getters return exactly what they
return before it; `ReadBigWigSignal` and `GetZoomValues` call the iterator constructor,
the zoom selector and the zoom reader with the same arguments as on the open handle. -/
theorem CloseBigWig_no_closed_check {σ : Type} (ienv : IterLayer σ) (zenv : ZoomLayer)
    (fuel numCPU : Nat) (sched : List Nat) (fp : Bigwig_file_out) (chrom : String)
    (start end_ numBins : Int) (useClosest : Bool) (desiredReduction : Int) :
    CloseBigWig fp =
      { bf_fp := fp.bf_fp.map (fun f =>
          { URL := f.URL.map (fun u => { fname := u.fname, closed := true }),
            IsWrite := f.IsWrite, Typ := f.Typ, Hdr := f.Hdr, Cl := f.Cl, Idx := f.Idx }),
        Info := fp.Info } ∧
    (CloseBigWig fp).Info = fp.Info ∧
    (CloseBigWig fp).bf_fp.map bigWigFile_t.IsWrite = fp.bf_fp.map bigWigFile_t.IsWrite ∧
    (CloseBigWig fp).bf_fp.map bigWigFile_t.Typ = fp.bf_fp.map bigWigFile_t.Typ ∧
    (CloseBigWig fp).bf_fp.map bigWigFile_t.URL =
      fp.bf_fp.map (fun f => f.URL.map URL_t.Close) ∧
    (CloseBigWig fp).bf_fp.map bigWigFile_t.Hdr = fp.bf_fp.map bigWigFile_t.Hdr ∧
    (CloseBigWig fp).bf_fp.map bigWigFile_t.Cl = fp.bf_fp.map bigWigFile_t.Cl ∧
    (CloseBigWig fp).bf_fp.map bigWigFile_t.Idx = fp.bf_fp.map bigWigFile_t.Idx ∧
    ShowChromosomes (CloseBigWig fp) = ShowChromosomes fp ∧
    GetChromosomesLen (CloseBigWig fp) = GetChromosomesLen fp ∧
    (GetVersion (CloseBigWig fp) = GetVersion fp ∧
      GetNLevels (CloseBigWig fp) = GetNLevels fp ∧
      GetFieldCount (CloseBigWig fp) = GetFieldCount fp ∧
      GetDefinedFieldCount (CloseBigWig fp) = GetDefinedFieldCount fp ∧
      GetBufsize (CloseBigWig fp) = GetBufsize fp ∧
      GetExtensionOffset (CloseBigWig fp) = GetExtensionOffset fp ∧
      GetNBasesCovered (CloseBigWig fp) = GetNBasesCovered fp ∧
      GetMinVal (CloseBigWig fp) = GetMinVal fp ∧
      GetMaxVal (CloseBigWig fp) = GetMaxVal fp ∧
      GetSumData (CloseBigWig fp) = GetSumData fp ∧
      GetSumSquared (CloseBigWig fp) = GetSumSquared fp) ∧
    (ReadBigWigSignal ienv fuel (CloseBigWig fp) chrom start end_).2.head? =
      (ReadBigWigSignal ienv fuel fp chrom start end_).2.head? ∧
    (GetZoomValues zenv numCPU sched (CloseBigWig fp) chrom start end_ numBins useClosest
        desiredReduction).2 =
      (GetZoomValues zenv numCPU sched fp chrom start end_ numBins useClosest
        desiredReduction).2 := by
  obtain ⟨hinfo, hhdr, hcl, hidx, hurl⟩ := CloseBigWig_parsed_state fp
  obtain ⟨hshow, hlen⟩ := CloseBigWig_chrom fp
  obtain ⟨hwhole, hwrite, htyp⟩ := CloseBigWig_whole fp
  refine ⟨hwhole, hinfo, hwrite, htyp, hurl, hhdr, hcl, hidx, hshow, hlen, ?_, ?_, ?_⟩
  · simp only [GetVersion, GetNLevels, GetFieldCount, GetDefinedFieldCount, GetBufsize,
      GetExtensionOffset, GetNBasesCovered, GetMinVal, GetMaxVal, GetSumData, GetSumSquared,
      hinfo, and_self]
  · cases h1 : ienv.bwOverlappingIntervalsIterator (CloseBigWig fp).bf_fp chrom
        (toUint32 start) (toUint32 end_) 10 <;>
      cases h2 : ienv.bwOverlappingIntervalsIterator fp.bf_fp chrom
        (toUint32 start) (toUint32 end_) 10 <;>
      simp only [ReadBigWigSignal, h1, h2, List.head?_cons]
  · exact GetZoomValues_log_of_hdr zenv numCPU sched fp (CloseBigWig fp) chrom start end_
      numBins useClosest desiredReduction hhdr

end GoBigWig
